import Mathlib

/-!
# The 88mph acquisition engine (`acquisition/acquisition.c`)

A shallow embedding of the acquisition engine: the file-level statics
(`curr_acq_mode_func`, `curr_int_mask`, `queue`, `q_head`, `q_tail`) become
fields of a `World` record, every C function becomes a function on `World`,
and every call into a collaborator (GPIO, delay, HY3131 driver, job scheduler,
interrupt enable/disable, mode handler) is appended to an effect trace.

Conventions
* `int` indices are `Int`; `x & Q_MASK` is `Int.land x Q_MASK`.
* A store to the volatile `curr_int_mask` is recorded in the trace as well, so
  that its place among the chip accesses is visible.
* `uint8_t` values are `Nat`; bytes coming from the chip are reduced `% 256`.
  The `int32_t` sample is kept as its 32-bit pattern (a `Nat` below `2 ^ 32`) and
  read as a signed number by `int32_of` where it is passed on as `int64_t`.
* The chip is an oracle: `hy_regs k i` is byte `i` of its answer to the `k`-th
  register read, so every theorem holds for every behaviour of the chip.
* A call through a null function pointer, or a registry lookup outside the
  table, is a fault: the operation returns `none`.
* The mode handlers other than `acq_mode_func_misc` live in other translation
  units.  Their bodies are a parameter (`Env.mode_func_body`): a handler is a
  program over the calls a handler can make into this unit and into the chip
  driver (`acq_set_int_mask`, the three queue functions, register reads and
  writes), with a private state of its own.  A handler does not call back into
  the dispatcher and does not call the scheduler itself.
* The registry `acq_mode_funcs[]`, the mode and submode identifiers and the bit
  `HY_REG_INT_AD1` come from headers outside the sources; they are fields of
  `Env`, and a theorem that needs a fact about them takes it as a hypothesis.
-/

namespace Acq

/-! ## Declarations taken from the headers -/

/-- Event tags a mode handler is called with (`acq_event_t`). -/
inductive acq_event_t
  | ACQ_EVENT_START
  | ACQ_EVENT_STOP
  | ACQ_EVENT_SET_SUBMODE
  | ACQ_EVENT_NEW_AD1
  deriving DecidableEq, Repr

/-- Values of the function pointer type `acq_mode_func`: the address of
`acq_mode_func_misc`, or of the n-th handler defined in another unit. -/
inductive acq_mode_func
  | acq_mode_func_misc
  | other (n : Nat)
  deriving DecidableEq, Repr

/-- Job identifiers used by this unit. -/
inductive job_t
  | JOB_ACQUISITION
  | JOB_MEASUREMENT
  deriving DecidableEq, Repr

/-- Output pins used by this unit. -/
inductive gpio_pin
  | HW_PWR_CTL
  | HW_PWR_CTL2
  deriving DecidableEq, Repr

/-- Register addresses of the HY3131 used by this unit (others by number). -/
inductive hy_reg
  | HY_REG_INTF
  | HY_REG_INTE
  | HY_REG_AD1_DATA
  | other (addr : Nat)
  deriving DecidableEq, Repr

/-- One observable call made by the engine, in program order. -/
inductive Effect
  | GPIO_PINSET (p : gpio_pin)
  | GPIO_PINRST (p : gpio_pin)
  | HAL_Delay (ms : Nat)
  | hy_init
  | hy_deinit
  | hy_read_regs (reg : hy_reg) (count : Nat)
  | hy_write_regs (reg : hy_reg) (count : Nat) (data : List Nat)
  | job_disable (j : job_t)
  | job_resume (j : job_t) (e : Bool)
  | job_schedule (j : job_t)
  | disable_irq
  | enable_irq
  | store_curr_int_mask (v : Nat)
  | mode_func (f : acq_mode_func) (event : acq_event_t) (value : Int)
  deriving DecidableEq, Repr

/-- Body of a mode handler defined outside this unit: a program over the calls
such a handler can make (mask, queue, chip registers), ending with the new value
of the handler's private state. -/
inductive Prog (R H : Type)
  | ret (h : H)
  | acq_set_int_mask (mask : Nat) (k : Prog R H)
  | acq_put_reading (reading : R) (k : Prog R H)
  | acq_get_reading (reading : R) (k : Bool → R → Prog R H)
  | acq_clear_readings (k : Prog R H)
  | hy_read_regs (reg : hy_reg) (count : Nat) (k : (Nat → Nat) → Prog R H)
  | hy_write_regs (reg : hy_reg) (count : Nat) (data : List Nat) (k : Prog R H)

/-- The statics of `acquisition.c` together with the collaborators' state.
`R` is `reading_t`, `H` the private state of the external mode handlers. -/
structure World (R H : Type) where
  /-- `static acq_mode_func curr_acq_mode_func`; `none` is the null pointer -/
  curr_acq_mode_func : Option acq_mode_func
  /-- `static volatile uint8_t curr_int_mask` -/
  curr_int_mask : Nat
  /-- `static volatile reading_t queue[ACQ_READING_QUEUE_SIZE]`, by index -/
  queue : Int → R
  /-- `static volatile int q_head` -/
  q_head : Int
  /-- `static volatile int q_tail` -/
  q_tail : Int
  /-- scheduler: whether a job is enabled -/
  job_enabled : job_t → Bool
  /-- chip: byte `i` answered by the `k`-th register read is `hy_regs k i` -/
  hy_regs : Nat → Nat → Nat
  /-- chip: number of register reads done so far -/
  hy_reads : Nat
  /-- private state of the handlers defined in other units -/
  mode_state : H
  /-- calls made so far, oldest first -/
  trace : List Effect

/-- Declarations this unit uses from headers and units outside the sources. -/
structure Env (R H : Type) where
  /-- bit of the AD1 source in the interrupt flag/enable registers -/
  HY_REG_INT_AD1 : Nat
  /-- the registry `acq_mode_funcs[]`, indexed by mode identifier -/
  acq_mode_funcs : List acq_mode_func
  /-- mode identifier `ACQ_MODE_MISC` -/
  ACQ_MODE_MISC : Nat
  /-- submode `ACQ_MODE_MISC_SUBMODE_OFF` -/
  ACQ_MODE_MISC_SUBMODE_OFF : Int
  /-- bodies of the handlers defined in other units -/
  mode_func_body : Nat → acq_event_t → Int → H → Prog R H

variable {R H : Type}

/-! ## Collaborators -/

/-- Append one call to the trace. -/
def emit (e : Effect) (w : World R H) : World R H :=
  { w with trace := w.trace ++ [e] }

/-- Modelled from the spec: the scheduler's `job_disable(job_id) -> was_enabled`
(system/job.c is not among the sources): returns whether the job was enabled
and leaves it disabled. -/
def job_disable (j : job_t) (w : World R H) : Bool × World R H :=
  (w.job_enabled j,
   emit (.job_disable j)
     { w with job_enabled := fun i => if i = j then false else w.job_enabled i })

/-- Modelled from the spec: the scheduler's `job_resume(job_id, was_enabled)`
(system/job.c is not among the sources): enables the job again only when
`was_enabled` is true. -/
def job_resume (j : job_t) (e : Bool) (w : World R H) : World R H :=
  emit (.job_resume j e)
    { w with job_enabled := fun i => if i = j ∧ e = true then true else w.job_enabled i }

/-- Modelled from the spec: the scheduler's `job_schedule(job_id)`
(system/job.c is not among the sources): requests a later run of the job. -/
def job_schedule (j : job_t) (w : World R H) : World R H :=
  emit (.job_schedule j) w

/-- Modelled from the spec: the chip driver's `read_regs(address, count) -> bytes`
(hardware/hy3131.c is not among the sources): the bytes are whatever the chip
answers to this read; each is a `uint8_t`. -/
def hy_read_regs (reg : hy_reg) (count : Nat) (w : World R H) : (Nat → Nat) × World R H :=
  (fun i => w.hy_regs w.hy_reads i % 256,
   emit (.hy_read_regs reg count) { w with hy_reads := w.hy_reads + 1 })

/-- Modelled from the spec: the chip driver's `write_regs(address, count, bytes)`
(hardware/hy3131.c is not among the sources). -/
def hy_write_regs (reg : hy_reg) (count : Nat) (data : List Nat) (w : World R H) : World R H :=
  emit (.hy_write_regs reg count data) w

/-- The assignment `curr_int_mask = v`.  The variable is volatile, so the store
is an observable access: it is recorded in the trace at its place in program
order. -/
def store_curr_int_mask (v : Nat) (w : World R H) : World R H :=
  emit (.store_curr_int_mask v) { w with curr_int_mask := v }

/-! ## The readings queue -/

/-- `#define ACQ_READING_QUEUE_SIZE (8)` -/
def ACQ_READING_QUEUE_SIZE : Int := 8

/-- `#define Q_MASK (ACQ_READING_QUEUE_SIZE-1)` -/
def Q_MASK : Int := ACQ_READING_QUEUE_SIZE - 1

/-- `void acq_put_reading(reading_t* reading)` -/
def acq_put_reading (reading : R) (w : World R H) : World R H :=
  let w := emit .disable_irq w
  let q_h := w.q_head
  let w :=
    if Int.land (q_h + 1) Q_MASK ≠ w.q_tail then
      { w with
        queue := fun i => if i = q_h then reading else w.queue i
        q_head := Int.land (q_h + 1) Q_MASK }
    else w
  let w := emit .enable_irq w
  job_schedule .JOB_MEASUREMENT w

/-- `bool acq_get_reading(reading_t* reading)`: the argument is the content of
`*reading` before the call; the result is the returned flag, the content of
`*reading` after the call, and the new state. -/
def acq_get_reading (reading : R) (w : World R H) : Bool × R × World R H :=
  let w := emit .disable_irq w
  let q_t := w.q_tail
  let there_is_a_reading : Bool := decide (w.q_head ≠ q_t)
  let (reading, w) :=
    if there_is_a_reading then
      (w.queue q_t, { w with q_tail := Int.land (q_t + 1) Q_MASK })
    else (reading, w)
  let w := emit .enable_irq w
  (there_is_a_reading, reading, w)

/-- `void acq_clear_readings(void)` -/
def acq_clear_readings (w : World R H) : World R H :=
  let w := emit .disable_irq w
  let w := { w with q_head := 0 }
  let w := { w with q_tail := 0 }
  emit .enable_irq w

/-! ## Interrupt mask and mode handlers -/

/-- `void acq_set_int_mask(uint8_t mask)` -/
def acq_set_int_mask (mask : Nat) (w : World R H) : World R H :=
  let (acq_enabled, w) := job_disable .JOB_ACQUISITION w
  let w := store_curr_int_mask mask w
  let w := if mask ≠ 0 then (hy_read_regs .HY_REG_INTF 1 w).2 else w
  let w := hy_write_regs .HY_REG_INTE 1 [mask] w
  job_resume .JOB_ACQUISITION acq_enabled w

/-- `void acq_mode_func_misc(acq_event_t event, int64_t value)` -/
def acq_mode_func_misc (_event : acq_event_t) (_value : Int) (w : World R H) : World R H :=
  let w := acq_set_int_mask 0 w
  acq_clear_readings w

/-- Run the body of a handler defined in another unit. -/
def Prog.exec : Prog R H → World R H → World R H
  | .ret h, w => { w with mode_state := h }
  | .acq_set_int_mask mask k, w => k.exec (Acq.acq_set_int_mask mask w)
  | .acq_put_reading reading k, w => k.exec (Acq.acq_put_reading reading w)
  | .acq_get_reading reading k, w =>
      let r := Acq.acq_get_reading reading w
      (k r.1 r.2.1).exec r.2.2
  | .acq_clear_readings k, w => k.exec (Acq.acq_clear_readings w)
  | .hy_read_regs reg count k, w =>
      let r := Acq.hy_read_regs reg count w
      (k r.1).exec r.2
  | .hy_write_regs reg count data k, w => k.exec (Acq.hy_write_regs reg count data w)

/-- A call `f(event, value)` through a handler pointer; the call is recorded in
the trace before the handler body runs.  A null pointer is a fault. -/
def call_mode_func (env : Env R H) (f : Option acq_mode_func) (event : acq_event_t)
    (value : Int) (w : World R H) : Option (World R H) :=
  match f with
  | none => none
  | some .acq_mode_func_misc =>
      some (acq_mode_func_misc event value (emit (.mode_func .acq_mode_func_misc event value) w))
  | some (.other n) =>
      some ((env.mode_func_body n event value w.mode_state).exec
        (emit (.mode_func (.other n) event value) w))

/-- Convert a 32-bit pattern to the `int32_t` it represents. -/
def int32_of (n : Nat) : Int :=
  if n % 2 ^ 32 < 2 ^ 31 then (n % 2 ^ 32 : Nat) else ((n % 2 ^ 32 : Nat) : Int) - 2 ^ 32

/-! ## Engine lifecycle and dispatcher -/

/-- `void acq_init(void)` -/
def acq_init (env : Env R H) (w : World R H) : Option (World R H) :=
  let w := emit (.GPIO_PINSET .HW_PWR_CTL) w
  let w := emit (.GPIO_PINSET .HW_PWR_CTL2) w
  let w := emit (.HAL_Delay 10) w
  let w := store_curr_int_mask 0 w
  let w := emit .hy_init w
  match env.acq_mode_funcs[env.ACQ_MODE_MISC]? with
  | none => none
  | some f =>
    let w := { w with curr_acq_mode_func := some f }
    call_mode_func env w.curr_acq_mode_func .ACQ_EVENT_START env.ACQ_MODE_MISC_SUBMODE_OFF w

/-- `void acq_set_mode(acq_mode_t mode, acq_submode_t submode)` -/
def acq_set_mode (env : Env R H) (mode : Nat) (submode : Int) (w : World R H) :
    Option (World R H) :=
  let (acq_enabled, w) := job_disable .JOB_ACQUISITION w
  match call_mode_func env w.curr_acq_mode_func .ACQ_EVENT_STOP 0 w with
  | none => none
  | some w =>
    match env.acq_mode_funcs[mode]? with
    | none => none
    | some f =>
      let w := { w with curr_acq_mode_func := some f }
      match call_mode_func env w.curr_acq_mode_func .ACQ_EVENT_START submode w with
      | none => none
      | some w => some (job_resume .JOB_ACQUISITION acq_enabled w)

/-- `void acq_set_submode(acq_submode_t submode)` -/
def acq_set_submode (env : Env R H) (submode : Int) (w : World R H) : Option (World R H) :=
  let (acq_enabled, w) := job_disable .JOB_ACQUISITION w
  match call_mode_func env w.curr_acq_mode_func .ACQ_EVENT_SET_SUBMODE submode w with
  | none => none
  | some w => some (job_resume .JOB_ACQUISITION acq_enabled w)

/-- `void acq_deinit(void)` -/
def acq_deinit (env : Env R H) (w : World R H) : Option (World R H) :=
  match acq_set_mode env env.ACQ_MODE_MISC env.ACQ_MODE_MISC_SUBMODE_OFF w with
  | none => none
  | some w =>
    let w := { w with curr_acq_mode_func := none }
    let w := emit .hy_deinit w
    let w := emit (.GPIO_PINRST .HW_PWR_CTL2) w
    some (emit (.GPIO_PINRST .HW_PWR_CTL) w)

/-- `void acq_handle_job_acquisition(void)` -/
def acq_handle_job_acquisition (env : Env R H) (w : World R H) : Option (World R H) :=
  let (intf, w) := hy_read_regs .HY_REG_INTF 1 w
  let which_ints := intf 0
  let which_ints := which_ints &&& w.curr_int_mask
  if which_ints &&& env.HY_REG_INT_AD1 ≠ 0 then
    let (regbuf, w) := hy_read_regs .HY_REG_AD1_DATA 3 w
    let val : Nat := regbuf 2 <<< 16 ||| regbuf 1 <<< 8 ||| regbuf 0
    let val : Nat := if val &&& 0x800000 ≠ 0 then (val ||| 0xFF000000) % 2 ^ 32 else val
    call_mode_func env w.curr_acq_mode_func .ACQ_EVENT_NEW_AD1 (int32_of val) w
  else some w


/-! ## Derived notions used to state the properties -/

/-- Push the readings of a list, first to last. -/
def put_all : List R → World R H → World R H
  | [], w => w
  | r :: rs, w => put_all rs (acq_put_reading r w)

/-- Call `acq_get_reading` `n` times, each time with `*reading = d` before the
call; returns the flag and content of `*reading` of every call, in order. -/
def get_n (d : R) : Nat → World R H → List (Bool × R) × World R H
  | 0, w => ([], w)
  | n + 1, w =>
      let r := acq_get_reading d w
      let rest := get_n d n r.2.2
      ((r.1, r.2.1) :: rest.1, rest.2)

/-- Number of stored readings: `(head - tail) mod 8`. -/
def q_count (w : World R H) : Nat := ((w.q_head - w.q_tail) % ACQ_READING_QUEUE_SIZE).toNat

/-- The stored readings, oldest first: the slots from tail up to head, modulo 8. -/
def q_view (w : World R H) : List R :=
  (List.range (q_count w)).map
    (fun (i : Nat) => w.queue ((w.q_tail + (i : Int)) % ACQ_READING_QUEUE_SIZE))

/-- Both indices are inside the array. -/
def q_inrange (w : World R H) : Prop :=
  (0 ≤ w.q_head ∧ w.q_head < ACQ_READING_QUEUE_SIZE) ∧
    (0 ≤ w.q_tail ∧ w.q_tail < ACQ_READING_QUEUE_SIZE)

instance (w : World R H) : Decidable (q_inrange w) := by
  unfold q_inrange
  infer_instance

/-- The calls a step added to the trace of `w`. -/
def added (w w1 : World R H) : List Effect := w1.trace.drop w.trace.length

/-- A sample state: readings are numbers, no handler active, indices at `i`,
slot `k` holding `100 + k`. -/
def sample (i : Int) : World Nat Unit where
  curr_acq_mode_func := none
  curr_int_mask := 0
  queue := fun k => (100 + k).toNat
  q_head := i
  q_tail := i
  job_enabled := fun _ => true
  hy_regs := fun _ _ => 0
  hy_reads := 0
  mode_state := ()
  trace := []

/-- A sample full queue: head 2, tail 3, seven readings stored. -/
def sample_full : World Nat Unit := { sample 3 with q_head := 2 }

/-- A handler call found in a trace: handler, event tag, value. -/
abbrev Delivery := acq_mode_func × acq_event_t × Int

/-- The handler calls of a trace, in order. -/
def events : List Effect → List Delivery
  | [] => []
  | .mode_func f event value :: t => (f, event, value) :: events t
  | _ :: t => events t

/-- Enabled state of the acquisition job after one more call, by the scheduler
contract: `job_disable` disables it, `job_resume` enables it when its argument
is true, nothing else touches it. -/
def job_step (en : Bool) : Effect → Bool
  | .job_disable .JOB_ACQUISITION => false
  | .job_resume .JOB_ACQUISITION e => en || e
  | _ => en

/-- Starting with the acquisition job disabled, it is still disabled after each
call of the trace segment. -/
def stays_disabled : List Effect → Bool
  | [] => true
  | e :: t => !(job_step false e) && stays_disabled t

/-- What a handler body can do to the engine: the active handler pointer, the
chip's answers and the scheduler state are as before, no handler is called, and
an acquisition job that was disabled is disabled after each call made. -/
def Frame (w w1 : World R H) : Prop :=
  w1.curr_acq_mode_func = w.curr_acq_mode_func ∧ w1.hy_regs = w.hy_regs ∧
  w1.job_enabled = w.job_enabled ∧
  ∃ seg, w1.trace = w.trace ++ seg ∧ events seg = [] ∧
    (w.job_enabled .JOB_ACQUISITION = false → stays_disabled seg = true)

/-- Run a list of `acq_set_mode(mode, submode)` calls in order. -/
def set_modes (env : Env R H) : List (Nat × Int) → World R H → Option (World R H)
  | [], w => some w
  | c :: cs, w =>
    match acq_set_mode env c.1 c.2 w with
    | none => none
    | some w1 => set_modes env cs w1

/-- The handler calls a list of `acq_set_mode` calls is expected to make when
`cur` is active at the start: STOP with value 0 to the active handler, then
START with the submode to the registry handler of the mode, call after call. -/
def expected_events (reg : List acq_mode_func) : acq_mode_func → List (Nat × Int) → List Delivery
  | _, [] => []
  | cur, c :: cs =>
    match reg[c.1]? with
    | none => []
    | some g =>
      (cur, .ACQ_EVENT_STOP, 0) :: (g, .ACQ_EVENT_START, c.2) :: expected_events reg g cs

/-- The handler that is active after a list of `acq_set_mode` calls. -/
def last_handler (reg : List acq_mode_func) : acq_mode_func → List (Nat × Int) → acq_mode_func
  | cur, [] => cur
  | cur, c :: cs =>
    match reg[c.1]? with
    | none => cur
    | some g => last_handler reg g cs

/-- No handler is sent START while it is started: `started` lists the handlers
that have received START and no STOP since. -/
def starts_paired : List acq_mode_func → List Delivery → Bool
  | _, [] => true
  | started, (f, .ACQ_EVENT_START, _) :: t =>
      !decide (f ∈ started) && starts_paired (f :: started) t
  | started, (f, .ACQ_EVENT_STOP, _) :: t => starts_paired (started.erase f) t
  | started, _ :: t => starts_paired started t

/-- Chip answers given as a table: read number, then byte offset. -/
def chip_answers (l : List (List Nat)) (k i : Nat) : Nat := (l.getD k []).getD i 0

/-- A sample measuring handler: START enables the AD1 interrupt, STOP disables
all interrupts, NEW_AD1 enqueues the magnitude of the value. -/
def sample_body : Nat → acq_event_t → Int → Unit → Prog Nat Unit
  | _, .ACQ_EVENT_START, _, h => .acq_set_int_mask 4 (.ret h)
  | _, .ACQ_EVENT_STOP, _, h => .acq_set_int_mask 0 (.ret h)
  | _, .ACQ_EVENT_NEW_AD1, v, h => .acq_put_reading v.natAbs (.ret h)
  | _, .ACQ_EVENT_SET_SUBMODE, _, h => .ret h

/-- A sample environment: AD1 is bit 2, the registry holds the misc handler at
index 0 (`ACQ_MODE_MISC`) and one measuring handler at index 1. -/
def sample_env : Env Nat Unit where
  HY_REG_INT_AD1 := 4
  acq_mode_funcs := [.acq_mode_func_misc, .other 0]
  ACQ_MODE_MISC := 0
  ACQ_MODE_MISC_SUBMODE_OFF := 0
  mode_func_body := sample_body

/-- A sample initialised state: the measuring handler is active with the AD1
interrupt enabled, and the chip answers the given reads. -/
def sample_measure (answers : List (List Nat)) : World Nat Unit :=
  { sample 0 with
    curr_acq_mode_func := some (.other 0)
    curr_int_mask := 4
    hy_regs := chip_answers answers }

/-- The sample initialised state with the acquisition job disabled by an outer
caller. -/
def sample_paused : World Nat Unit :=
  { sample_measure [] with job_enabled := fun _ => false }

/-- A sample state with stale contents: a full queue, the measuring handler
registered as active, mask 4 and the chip reporting AD1 pending. -/
def sample_stale : World Nat Unit :=
  { sample_measure [[4], [4], [1, 2, 3]] with q_head := 2, q_tail := 3 }

/-- One call into the readings queue. -/
inductive QOp (R : Type)
  | put (reading : R)
  | get
  | clear

/-- Run queue calls in order; every `acq_get_reading` is called with
`*reading = d`, and its flag and the content of `*reading` after the call are
collected. -/
def run_q (d : R) : List (QOp R) → World R H → List (Bool × R) × World R H
  | [], w => ([], w)
  | .put r :: t, w => run_q d t (acq_put_reading r w)
  | .get :: t, w =>
      let g := acq_get_reading d w
      let rest := run_q d t g.2.2
      ((g.1, g.2.1) :: rest.1, rest.2)
  | .clear :: t, w => run_q d t (acq_clear_readings w)

/-- The bounded FIFO the ring buffer is compared with, push: append when fewer
than 7 readings are held, otherwise drop. -/
def fifo_put (r : R) (l : List R) : List R := if l.length < 7 then l ++ [r] else l

/-- The bounded FIFO, pop: the first reading if there is one, otherwise the
flag false and the output left at `d`. -/
def fifo_get (d : R) : List R → (Bool × R) × List R
  | [] => ((false, d), [])
  | x :: xs => ((true, x), xs)

/-- Run queue calls in order on the bounded FIFO. -/
def fifo_run (d : R) : List (QOp R) → List R → List (Bool × R) × List R
  | [], l => ([], l)
  | .put r :: t, l => fifo_run d t (fifo_put r l)
  | .get :: t, l =>
      let rest := fifo_run d t (fifo_get d l).2
      ((fifo_get d l).1 :: rest.1, rest.2)
  | .clear :: t, _ => fifo_run d t []

/-- The data of the last write to the interrupt-enable register in a trace. -/
def last_inte_write (t : List Effect) : Option (List Nat) :=
  t.foldl (fun acc e =>
    match e with
    | .hy_write_regs .HY_REG_INTE _ data => some data
    | _ => acc) none

/-- A call that does not switch a supply pin. -/
def calm : Effect → Bool
  | .GPIO_PINSET _ => false
  | .GPIO_PINRST _ => false
  | _ => true

/-- The supply pin calls of a trace, in order. -/
def supply_calls (t : List Effect) : List Effect := t.filter (fun e => !calm e)

/-- Replay of the two supply pins over a trace (`d`: digital supply on, `a`:
analog supply on): every call into the chip driver is made with both on. -/
def rails_ok : Bool → Bool → List Effect → Bool
  | _, _, [] => true
  | _, a, .GPIO_PINSET .HW_PWR_CTL :: t => rails_ok true a t
  | d, _, .GPIO_PINSET .HW_PWR_CTL2 :: t => rails_ok d true t
  | _, a, .GPIO_PINRST .HW_PWR_CTL :: t => rails_ok false a t
  | d, _, .GPIO_PINRST .HW_PWR_CTL2 :: t => rails_ok d false t
  | d, a, .hy_init :: t => d && a && rails_ok d a t
  | d, a, .hy_deinit :: t => d && a && rails_ok d a t
  | d, a, .hy_read_regs _ _ :: t => d && a && rails_ok d a t
  | d, a, .hy_write_regs _ _ _ :: t => d && a && rails_ok d a t
  | d, a, _ :: t => rails_ok d a t

/-- The step from `w` to `w1` only appended calls that switch no supply pin. -/
def Calm (w w1 : World R H) : Prop :=
  ∃ seg, w1.trace = w.trace ++ seg ∧ seg.all calm = true

/-- One call of the public interface of the engine. -/
inductive Op
  | acq_init
  | acq_deinit
  | acq_set_mode (mode : Nat) (submode : Int)
  | acq_set_submode (submode : Int)
  | acq_handle_job_acquisition
  deriving DecidableEq, Repr

/-- Run one call of the public interface. -/
def run_op (env : Env R H) : Op → World R H → Option (World R H)
  | .acq_init, w => Acq.acq_init env w
  | .acq_deinit, w => Acq.acq_deinit env w
  | .acq_set_mode mode submode, w => Acq.acq_set_mode env mode submode w
  | .acq_set_submode submode, w => Acq.acq_set_submode env submode w
  | .acq_handle_job_acquisition, w => Acq.acq_handle_job_acquisition env w

/-- Run calls of the public interface in order. -/
def run_ops (env : Env R H) : List Op → World R H → Option (World R H)
  | [], w => some w
  | op :: t, w =>
    match run_op env op w with
    | none => none
    | some w1 => run_ops env t w1

/-- The handler calls made by a run, if it returns. -/
def run_events (env : Env R H) (ops : List Op) (w : World R H) : Option (List Delivery) :=
  (run_ops env ops w).map (fun w1 => events (added w w1))

/-- A call sequence respects the interface: `acq_init` is called only while the
engine is not initialised, everything else only while it is, and mode
identifiers index the registry of `n` entries.  The flag tells whether the
engine is initialised at the start. -/
def ops_ok (n : Nat) : Bool → List Op → Bool
  | _, [] => true
  | false, .acq_init :: t => ops_ok n true t
  | true, .acq_deinit :: t => ops_ok n false t
  | true, .acq_set_mode mode _ :: t => decide (mode < n) && ops_ok n true t
  | true, .acq_set_submode _ :: t => ops_ok n true t
  | true, .acq_handle_job_acquisition :: t => ops_ok n true t
  | _, _ :: _ => false

/-- No handler is called with SET_SUBMODE or NEW_AD1 before its first START:
`seen` lists the handlers that have been sent START so far. -/
def no_early_delivery : List acq_mode_func → List Delivery → Bool
  | _, [] => true
  | seen, (f, .ACQ_EVENT_START, _) :: t => no_early_delivery (f :: seen) t
  | seen, (_, .ACQ_EVENT_STOP, _) :: t => no_early_delivery seen t
  | seen, (f, _, _) :: t => decide (f ∈ seen) && no_early_delivery seen t

/-- As `starts_paired`, except that the handler `ex` may be sent START while it
is started. -/
def starts_paired_but (ex : acq_mode_func) : List acq_mode_func → List Delivery → Bool
  | _, [] => true
  | started, (f, .ACQ_EVENT_START, _) :: t =>
      (!decide (f ∈ started) || decide (f = ex)) &&
        starts_paired_but ex (f :: started.erase f) t
  | started, (f, .ACQ_EVENT_STOP, _) :: t => starts_paired_but ex (started.erase f) t
  | started, _ :: t => starts_paired_but ex started t

/-- The state of the handler protocol before a call sequence, over any number
of sessions: while initialised, exactly the active handler is started and it
has been sent START; while not, no handler or only the misc handler is started. -/
def ProtocolInv (w : World R H) (init : Bool) (started seen : List acq_mode_func) : Prop :=
  (init = true → ∃ h, w.curr_acq_mode_func = some h ∧ started = [h] ∧ h ∈ seen) ∧
  (init = false → started = [] ∨ started = [.acq_mode_func_misc])

/-! ## The readings queue: lemmas -/

theorem land_Q_MASK (x : Int) (h1 : 0 ≤ x) (h2 : x < 16) : Int.land x Q_MASK = x % 8 := by
  interval_cases x <;> rfl

theorem put_q_head (r : R) (w : World R H) :
    (acq_put_reading r w).q_head =
      if Int.land (w.q_head + 1) Q_MASK ≠ w.q_tail then Int.land (w.q_head + 1) Q_MASK else w.q_head := by
  simp only [acq_put_reading, emit, job_schedule]
  split <;> rfl

theorem put_q_tail (r : R) (w : World R H) : (acq_put_reading r w).q_tail = w.q_tail := by
  simp only [acq_put_reading, emit, job_schedule]
  split <;> rfl

theorem put_queue (r : R) (w : World R H) :
    (acq_put_reading r w).queue =
      if Int.land (w.q_head + 1) Q_MASK ≠ w.q_tail then
        (fun i => if i = w.q_head then r else w.queue i) else w.queue := by
  simp only [acq_put_reading, emit, job_schedule]
  split <;> rfl

theorem q_count_eq (w : World R H) :
    (q_count w : Int) = (w.q_head - w.q_tail) % 8 := by
  unfold q_count
  simp only [ACQ_READING_QUEUE_SIZE]
  omega

theorem put_inrange (r : R) (w : World R H) (hr : q_inrange w) : q_inrange (acq_put_reading r w) := by
  obtain ⟨⟨a, b⟩, c, d⟩ := hr
  simp only [ACQ_READING_QUEUE_SIZE] at b d
  refine ⟨?_, by rw [put_q_tail]; exact ⟨c, d⟩⟩
  rw [put_q_head, land_Q_MASK _ (by omega) (by omega)]
  simp only [ACQ_READING_QUEUE_SIZE]
  split <;> omega

theorem put_view (r : R) (w : World R H) (hr : q_inrange w) (hc : q_count w < 7) :
    q_view (acq_put_reading r w) = q_view w ++ [r] := by
  have hcnt := q_count_eq w
  have hr2 := put_inrange r w hr
  have hcnt2 := q_count_eq (acq_put_reading r w)
  obtain ⟨⟨a, b⟩, c, d⟩ := hr
  simp only [ACQ_READING_QUEUE_SIZE] at b d
  have hne : Int.land (w.q_head + 1) Q_MASK ≠ w.q_tail := by
    rw [land_Q_MASK _ (by omega) (by omega)]; omega
  have hh : (acq_put_reading r w).q_head = (w.q_head + 1) % 8 := by
    rw [put_q_head, if_pos hne, land_Q_MASK _ (by omega) (by omega)]
  have hq : (acq_put_reading r w).queue = fun i => if i = w.q_head then r else w.queue i := by
    rw [put_queue, if_pos hne]
  have hc2 : q_count (acq_put_reading r w) = q_count w + 1 := by
    rw [hh, put_q_tail] at hcnt2; omega
  unfold q_view
  rw [hc2, List.range_succ, List.map_append, put_q_tail, hq]
  congr 1
  · apply List.map_congr_left
    intro i hi
    have hi2 : i < q_count w := List.mem_range.mp hi
    simp only [ACQ_READING_QUEUE_SIZE]
    rw [if_neg]
    omega
  · simp only [ACQ_READING_QUEUE_SIZE, List.map_cons, List.map_nil]
    rw [if_pos]
    omega


theorem q_view_length (w : World R H) : (q_view w).length = q_count w := by
  simp [q_view]

theorem get_flag (d : R) (w : World R H) :
    (acq_get_reading d w).1 = decide (w.q_head ≠ w.q_tail) := by
  simp only [acq_get_reading, emit]

theorem get_value (d : R) (w : World R H) :
    (acq_get_reading d w).2.1 = if w.q_head ≠ w.q_tail then w.queue w.q_tail else d := by
  simp only [acq_get_reading, emit]
  by_cases h : w.q_head = w.q_tail <;> simp [h]

theorem get_q_tail (d : R) (w : World R H) :
    (acq_get_reading d w).2.2.q_tail =
      if w.q_head ≠ w.q_tail then Int.land (w.q_tail + 1) Q_MASK else w.q_tail := by
  simp only [acq_get_reading, emit]
  by_cases h : w.q_head = w.q_tail <;> simp [h]

theorem get_q_head (d : R) (w : World R H) : (acq_get_reading d w).2.2.q_head = w.q_head := by
  simp only [acq_get_reading, emit]
  by_cases h : w.q_head = w.q_tail <;> simp [h]

theorem get_queue (d : R) (w : World R H) : (acq_get_reading d w).2.2.queue = w.queue := by
  simp only [acq_get_reading, emit]
  by_cases h : w.q_head = w.q_tail <;> simp [h]

theorem get_inrange (d : R) (w : World R H) (hr : q_inrange w) :
    q_inrange (acq_get_reading d w).2.2 := by
  obtain ⟨⟨a, b⟩, c, e⟩ := hr
  simp only [ACQ_READING_QUEUE_SIZE] at b e
  refine ⟨by rw [get_q_head]; exact ⟨a, b⟩, ?_⟩
  rw [get_q_tail]
  simp only [ACQ_READING_QUEUE_SIZE]
  split
  · rw [land_Q_MASK _ (by omega) (by omega)]; omega
  · omega

theorem get_view_cons (d : R) (w : World R H) (hr : q_inrange w) (x : R) (xs : List R)
    (hv : q_view w = x :: xs) :
    (acq_get_reading d w).1 = true ∧ (acq_get_reading d w).2.1 = x ∧
      q_view (acq_get_reading d w).2.2 = xs := by
  have hcnt := q_count_eq w
  have hcnt2 := q_count_eq (acq_get_reading d w).2.2
  have hlen := q_view_length w
  rw [hv, List.length_cons] at hlen
  obtain ⟨⟨a, b⟩, c, e⟩ := hr
  simp only [ACQ_READING_QUEUE_SIZE] at b e
  have hne : w.q_head ≠ w.q_tail := by omega
  have ht : (acq_get_reading d w).2.2.q_tail = (w.q_tail + 1) % 8 := by
    rw [get_q_tail, if_pos hne, land_Q_MASK _ (by omega) (by omega)]
  have hc2 : q_count (acq_get_reading d w).2.2 = xs.length := by
    rw [ht, get_q_head] at hcnt2; omega
  unfold q_view at hv
  rw [← hlen, List.range_succ_eq_map, List.map_cons, List.map_map] at hv
  simp only [ACQ_READING_QUEUE_SIZE, List.cons.injEq] at hv
  obtain ⟨hx, hxs⟩ := hv
  refine ⟨by rw [get_flag]; simpa using hne, ?_, ?_⟩
  · rw [get_value, if_pos hne, ← hx]
    congr 1
    simp only [Nat.cast_zero, add_zero]
    omega
  · unfold q_view
    rw [hc2, get_queue, ht]
    conv_rhs => rw [← hxs]
    apply List.map_congr_left
    intro i _
    simp only [ACQ_READING_QUEUE_SIZE, Function.comp, Nat.succ_eq_add_one, Nat.cast_add, Nat.cast_one]
    congr 1
    omega

theorem get_view_nil (d : R) (w : World R H) (hr : q_inrange w) (hv : q_view w = []) :
    (acq_get_reading d w).1 = false ∧ (acq_get_reading d w).2.1 = d ∧
      q_view (acq_get_reading d w).2.2 = [] := by
  have hcnt := q_count_eq w
  have hcnt2 := q_count_eq (acq_get_reading d w).2.2
  have hlen := q_view_length w
  rw [hv, List.length_nil] at hlen
  obtain ⟨⟨a, b⟩, c, e⟩ := hr
  simp only [ACQ_READING_QUEUE_SIZE] at b e
  have he : w.q_head = w.q_tail := by omega
  have ht : (acq_get_reading d w).2.2.q_tail = w.q_tail := by
    rw [get_q_tail, if_neg (by simpa using he)]
  have hc2 : q_count (acq_get_reading d w).2.2 = 0 := by
    rw [ht, get_q_head] at hcnt2; omega
  refine ⟨by rw [get_flag]; simpa using he, by rw [get_value, if_neg (by simpa using he)], ?_⟩
  unfold q_view
  rw [hc2]
  rfl

theorem put_all_view (ps : List R) : ∀ w : World R H, q_inrange w → q_count w + ps.length ≤ 7 →
    q_view (put_all ps w) = q_view w ++ ps ∧ q_inrange (put_all ps w) := by
  induction ps with
  | nil => intro w hr _; exact ⟨by simp [put_all], hr⟩
  | cons p ps ih =>
    intro w hr hc
    simp only [List.length_cons] at hc
    have hv := put_view p w hr (by omega)
    have hl : q_count (acq_put_reading p w) = q_count w + 1 := by
      rw [← q_view_length, hv, List.length_append, q_view_length]; rfl
    obtain ⟨h1, h2⟩ := ih (acq_put_reading p w) (put_inrange p w hr) (by omega)
    refine ⟨?_, h2⟩
    show q_view (put_all ps (acq_put_reading p w)) = _
    rw [h1, hv, List.append_assoc]
    rfl

theorem get_n_view (d : R) (xs : List R) : ∀ w : World R H, q_inrange w → q_view w = xs →
    (get_n d xs.length w).1 = xs.map (fun x => (true, x)) ∧ q_view (get_n d xs.length w).2 = [] ∧
      q_inrange (get_n d xs.length w).2 := by
  induction xs with
  | nil => intro w hr hv; exact ⟨rfl, hv, hr⟩
  | cons x xs ih =>
    intro w hr hv
    obtain ⟨h1, h2, h3⟩ := get_view_cons d w hr x xs hv
    obtain ⟨i1, i2, i3⟩ := ih (acq_get_reading d w).2.2 (get_inrange d w hr) h3
    refine ⟨?_, i2, i3⟩
    show ((acq_get_reading d w).1, (acq_get_reading d w).2.1) :: (get_n d xs.length (acq_get_reading d w).2.2).1 = _
    rw [h1, h2, i1]
    rfl


theorem get_n_congr (d : R) (n : Nat) : ∀ w1 w2 : World R H,
    w1.queue = w2.queue → w1.q_head = w2.q_head → w1.q_tail = w2.q_tail →
    (get_n d n w1).1 = (get_n d n w2).1 := by
  induction n with
  | zero => intro w1 w2 _ _ _; rfl
  | succ n ih =>
    intro w1 w2 hq hh ht
    have h := ih (acq_get_reading d w1).2.2 (acq_get_reading d w2).2.2
      (by rw [get_queue, get_queue, hq]) (by rw [get_q_head, get_q_head, hh])
      (by rw [get_q_tail, get_q_tail, hh, ht])
    show ((acq_get_reading d w1).1, (acq_get_reading d w1).2.1) ::
        (get_n d n (acq_get_reading d w1).2.2).1 =
      ((acq_get_reading d w2).1, (acq_get_reading d w2).2.1) ::
        (get_n d n (acq_get_reading d w2).2.2).1
    rw [h, get_flag, get_flag, get_value, get_value, hq, hh, ht]

theorem put_trace (r : R) (w : World R H) :
    (acq_put_reading r w).trace =
      w.trace ++ [.disable_irq, .enable_irq, .job_schedule .JOB_MEASUREMENT] := by
  simp only [acq_put_reading, emit, job_schedule]
  split <;> simp

/-! ## The readings queue: properties -/

/-- C1, queue FIFO order: from an empty queue (head equal to tail, at any index
0..7), pushing fewer than capacity-1 readings and then popping as many times
returns true on every pop and yields the pushed readings in push order. -/
theorem queue_fifo_order (w : World R H) (ps : List R) (d : R)
    (hidx : 0 ≤ w.q_head ∧ w.q_head < ACQ_READING_QUEUE_SIZE) (hempty : w.q_head = w.q_tail)
    (hn : (ps.length : Int) < ACQ_READING_QUEUE_SIZE - 1) :
    (get_n d ps.length (put_all ps w)).1 = ps.map (fun p => (true, p)) := by
  have hr : q_inrange w := ⟨hidx, hempty ▸ hidx⟩
  have hc : q_count w = 0 := by
    have := q_count_eq w
    rw [hempty] at this
    omega
  have hv : q_view w = [] := List.eq_nil_of_length_eq_zero (by rw [q_view_length, hc])
  simp only [ACQ_READING_QUEUE_SIZE] at hn
  obtain ⟨h1, h2⟩ := put_all_view ps w hr (by omega)
  rw [hv, List.nil_append] at h1
  exact (get_n_view d ps (put_all ps w) h2 h1).1

/-- Witness for C1: six readings pushed into an empty queue whose indices sit at
5, so that the head wraps around the end of the array. -/
theorem queue_fifo_order_witness :
    (get_n 0 6 (put_all [10, 20, 30, 40, 50, 60] (sample 5))).1 =
      [(true, 10), (true, 20), (true, 30), (true, 40), (true, 50), (true, 60)] :=
  queue_fifo_order (sample 5) [10, 20, 30, 40, 50, 60] 0 (by decide) rfl (by decide)

/-- C2, queue overflow drop: when the queue is full (seven readings stored, the
head advanced by one equals the tail), a push leaves head, tail and every slot
unchanged, and any number of later pops returns what it would have returned
without the push. -/
theorem queue_overflow_drop (w : World R H) (r : R) (hr : q_inrange w)
    (hfull : (w.q_head + 1) % ACQ_READING_QUEUE_SIZE = w.q_tail) :
    (q_view w).length = 7 ∧
    (acq_put_reading r w).q_head = w.q_head ∧
    (acq_put_reading r w).q_tail = w.q_tail ∧
    (acq_put_reading r w).queue = w.queue ∧
    ∀ (d : R) (n : Nat), (get_n d n (acq_put_reading r w)).1 = (get_n d n w).1 := by
  have hcnt := q_count_eq w
  obtain ⟨⟨a, b⟩, c, e⟩ := hr
  simp only [ACQ_READING_QUEUE_SIZE] at b e hfull
  have hl : Int.land (w.q_head + 1) Q_MASK = w.q_tail := by
    rw [land_Q_MASK _ (by omega) (by omega)]; exact hfull
  have h1 : (acq_put_reading r w).q_head = w.q_head := by
    rw [put_q_head, if_neg (by simpa using hl)]
  have h2 : (acq_put_reading r w).queue = w.queue := by
    rw [put_queue, if_neg (by simpa using hl)]
  refine ⟨by rw [q_view_length]; omega, h1, put_q_tail r w, h2, ?_⟩
  intro d n
  exact get_n_congr d n _ _ h2 h1 (put_q_tail r w)

/-- Witness for C2: a full queue with head 2 and tail 3. -/
theorem queue_overflow_drop_witness :
    (q_view sample_full).length = 7 ∧
    (acq_put_reading 99 sample_full).q_head = sample_full.q_head ∧
    (acq_put_reading 99 sample_full).q_tail = sample_full.q_tail ∧
    (acq_put_reading 99 sample_full).queue = sample_full.queue ∧
    ∀ (d : Nat) (n : Nat),
      (get_n d n (acq_put_reading 99 sample_full)).1 = (get_n d n sample_full).1 :=
  queue_overflow_drop sample_full 99 (by decide) (by decide)

/-- C3, counterexample: on the full sample queue the reading 99 is not enqueued
(the stored readings are the same seven as before), yet the push calls
`job_schedule(JOB_MEASUREMENT)`. -/
theorem put_full_still_schedules :
    q_view (acq_put_reading 99 sample_full) = q_view sample_full ∧
    q_view sample_full = [103, 104, 105, 106, 107, 100, 101] ∧
    added sample_full (acq_put_reading 99 sample_full) =
      [.disable_irq, .enable_irq, .job_schedule .JOB_MEASUREMENT] := by
  decide

/-- C3, amended: every push calls `job_schedule(JOB_MEASUREMENT)` exactly once,
after the critical section, whether or not the reading was enqueued; the reading
is stored and the head advanced exactly when the head advanced by one differs
from the tail, and otherwise head, tail and slots are left as they were. -/
theorem put_always_schedules (w : World R H) (r : R) :
    added w (acq_put_reading r w) =
      [.disable_irq, .enable_irq, .job_schedule .JOB_MEASUREMENT] ∧
    (acq_put_reading r w).q_head =
      (if Int.land (w.q_head + 1) Q_MASK ≠ w.q_tail then Int.land (w.q_head + 1) Q_MASK
        else w.q_head) ∧
    (acq_put_reading r w).queue =
      (if Int.land (w.q_head + 1) Q_MASK ≠ w.q_tail then
        (fun i => if i = w.q_head then r else w.queue i) else w.queue) ∧
    (acq_put_reading r w).q_tail = w.q_tail :=
  ⟨by simp [added, put_trace], put_q_head r w, put_queue r w, put_q_tail r w⟩

/-- C10, queue clear: after `acq_clear_readings`, whatever the state was, both
indices are 0 (the initial values of the statics), a pop returns false and
leaves the output untouched; a push of `r` followed by a pop then returns true
with `r`, after which the queue is empty again and a further pop returns false. -/
theorem queue_clear (w : World R H) (d r : R) :
    (acq_clear_readings w).q_head = 0 ∧ (acq_clear_readings w).q_tail = 0 ∧
    q_view (acq_clear_readings w) = [] ∧
    (acq_get_reading d (acq_clear_readings w)).1 = false ∧
    (acq_get_reading d (acq_clear_readings w)).2.1 = d ∧
    (acq_get_reading d
      (acq_put_reading r (acq_get_reading d (acq_clear_readings w)).2.2)).1 = true ∧
    (acq_get_reading d
      (acq_put_reading r (acq_get_reading d (acq_clear_readings w)).2.2)).2.1 = r ∧
    q_view (acq_get_reading d
      (acq_put_reading r (acq_get_reading d (acq_clear_readings w)).2.2)).2.2 = [] ∧
    (acq_get_reading d (acq_get_reading d
      (acq_put_reading r (acq_get_reading d (acq_clear_readings w)).2.2)).2.2).1 = false := by
  have hh : (acq_clear_readings w).q_head = 0 := rfl
  have ht : (acq_clear_readings w).q_tail = 0 := rfl
  have hr : q_inrange (acq_clear_readings w) := by
    simp [q_inrange, hh, ht, ACQ_READING_QUEUE_SIZE]
  have hv : q_view (acq_clear_readings w) = [] := by
    simp [q_view, q_count, hh, ht]
  obtain ⟨g1, g2, g3⟩ := get_view_nil d _ hr hv
  have hr1 := get_inrange d _ hr
  have hc1 : q_count (acq_get_reading d (acq_clear_readings w)).2.2 < 7 := by
    rw [← q_view_length, g3]; simp
  have pv := put_view r _ hr1 hc1
  rw [g3, List.nil_append] at pv
  have hr2 := put_inrange r _ hr1
  obtain ⟨k1, k2, k3⟩ := get_view_cons d _ hr2 r [] pv
  obtain ⟨m1, _, _⟩ := get_view_nil d _ (get_inrange d _ hr2) k3
  exact ⟨hh, ht, hv, g1, g2, k1, k2, k3, m1⟩

/-! ## Traces and handler bodies: lemmas -/

theorem events_append (a b : List Effect) : events (a ++ b) = events a ++ events b := by
  induction a with
  | nil => rfl
  | cons e t ih => cases e <;> simp [events, ih]

theorem stays_disabled_append (a b : List Effect) :
    stays_disabled (a ++ b) = (stays_disabled a && stays_disabled b) := by
  induction a with
  | nil => rfl
  | cons e t ih => simp [stays_disabled, ih, Bool.and_assoc]

theorem added_eq (w w1 : World R H) (seg : List Effect) (h : w1.trace = w.trace ++ seg) :
    added w w1 = seg := by
  simp [added, h]

theorem Frame.refl (w : World R H) : Frame w w :=
  ⟨rfl, rfl, rfl, [], by simp, rfl, fun _ => rfl⟩

theorem Frame.trans {w w1 w2 : World R H} (h1 : Frame w w1) (h2 : Frame w1 w2) : Frame w w2 := by
  obtain ⟨a1, b1, c1, s1, t1, e1, d1⟩ := h1
  obtain ⟨a2, b2, c2, s2, t2, e2, d2⟩ := h2
  refine ⟨a2.trans a1, b2.trans b1, c2.trans c1, s1 ++ s2, ?_, ?_, ?_⟩
  · rw [t2, t1, List.append_assoc]
  · rw [events_append, e1, e2]; rfl
  · intro hd
    rw [stays_disabled_append, d1 hd, d2 (by rw [c1]; exact hd)]
    rfl

theorem frame_put (r : R) (w : World R H) : Frame w (acq_put_reading r w) := by
  refine ⟨?_, ?_, ?_, _, put_trace r w, rfl, fun _ => rfl⟩ <;>
    (simp only [acq_put_reading, emit, job_schedule]; split <;> rfl)

theorem get_trace (d : R) (w : World R H) :
    (acq_get_reading d w).2.2.trace = w.trace ++ [.disable_irq, .enable_irq] := by
  simp only [acq_get_reading, emit]
  by_cases h : w.q_head = w.q_tail <;> simp [h]

theorem frame_get (d : R) (w : World R H) : Frame w (acq_get_reading d w).2.2 := by
  refine ⟨?_, ?_, ?_, _, get_trace d w, rfl, fun _ => rfl⟩ <;>
    (simp only [acq_get_reading, emit]; by_cases h : w.q_head = w.q_tail <;> simp [h])

theorem frame_clear (w : World R H) : Frame w (acq_clear_readings w) :=
  ⟨rfl, rfl, rfl, [.disable_irq, .enable_irq], by simp [acq_clear_readings, emit], rfl,
    fun _ => rfl⟩

theorem frame_read (reg : hy_reg) (count : Nat) (w : World R H) :
    Frame w (hy_read_regs reg count w).2 :=
  ⟨rfl, rfl, rfl, [.hy_read_regs reg count], rfl, rfl, fun _ => rfl⟩

theorem frame_write (reg : hy_reg) (count : Nat) (data : List Nat) (w : World R H) :
    Frame w (hy_write_regs reg count data w) :=
  ⟨rfl, rfl, rfl, [.hy_write_regs reg count data], rfl, rfl, fun _ => rfl⟩

/-- The calls made by `acq_set_int_mask`, given the prior state of the job. -/
theorem set_int_mask_trace (mask : Nat) (w : World R H) :
    (acq_set_int_mask mask w).trace =
      w.trace ++ (.job_disable .JOB_ACQUISITION ::
        (.store_curr_int_mask mask ::
          (if mask ≠ 0 then [.hy_read_regs .HY_REG_INTF 1] else [])) ++
        [.hy_write_regs .HY_REG_INTE 1 [mask],
         .job_resume .JOB_ACQUISITION (w.job_enabled .JOB_ACQUISITION)]) := by
  by_cases h : mask = 0 <;>
    simp [acq_set_int_mask, store_curr_int_mask, job_disable, job_resume, hy_read_regs,
      hy_write_regs, emit, h]

theorem set_int_mask_job (mask : Nat) (w : World R H) :
    (acq_set_int_mask mask w).job_enabled = w.job_enabled := by
  funext i
  by_cases h : mask = 0 <;> cases i <;> cases hj : w.job_enabled .JOB_ACQUISITION <;>
    simp [acq_set_int_mask, store_curr_int_mask, job_disable, job_resume, hy_read_regs,
      hy_write_regs, emit, h, hj]

theorem frame_set_int_mask (mask : Nat) (w : World R H) : Frame w (acq_set_int_mask mask w) := by
  refine ⟨?_, ?_, set_int_mask_job mask w, _, set_int_mask_trace mask w, ?_, ?_⟩
  · by_cases h : mask = 0 <;>
      simp [acq_set_int_mask, store_curr_int_mask, job_disable, job_resume, hy_read_regs,
      hy_write_regs, emit, h]
  · by_cases h : mask = 0 <;>
      simp [acq_set_int_mask, store_curr_int_mask, job_disable, job_resume, hy_read_regs,
      hy_write_regs, emit, h]
  · by_cases h : mask = 0 <;> simp [h, events]
  · intro hd
    by_cases h : mask = 0 <;> simp [h, hd, stays_disabled, job_step]

theorem frame_exec (p : Prog R H) : ∀ w : World R H, Frame w (p.exec w) := by
  induction p with
  | ret h => intro w; exact ⟨rfl, rfl, rfl, [], by simp [Prog.exec], rfl, fun _ => rfl⟩
  | acq_set_int_mask mask k ih => intro w; exact (frame_set_int_mask mask w).trans (ih _)
  | acq_put_reading r k ih => intro w; exact (frame_put r w).trans (ih _)
  | acq_get_reading r k ih => intro w; exact (frame_get r w).trans (ih _ _ _)
  | acq_clear_readings k ih => intro w; exact (frame_clear w).trans (ih _)
  | hy_read_regs reg count k ih => intro w; exact (frame_read reg count w).trans (ih _ _)
  | hy_write_regs reg count data k ih => intro w; exact (frame_write reg count data w).trans (ih _)

theorem frame_misc (event : acq_event_t) (value : Int) (w : World R H) :
    Frame w (acq_mode_func_misc event value w) :=
  (frame_set_int_mask 0 w).trans (frame_clear _)

theorem misc_state (event : acq_event_t) (value : Int) (w : World R H) :
    (acq_mode_func_misc event value w).curr_int_mask = 0 ∧
    (acq_mode_func_misc event value w).q_head = 0 ∧
    (acq_mode_func_misc event value w).q_tail = 0 := by
  simp [acq_mode_func_misc, acq_clear_readings, acq_set_int_mask, store_curr_int_mask,
    job_disable, job_resume, hy_write_regs, emit]


/-- A call through a non-null handler pointer returns; it records the call and
then only does what a handler body can do. -/
theorem call_frame (env : Env R H) (h : acq_mode_func) (event : acq_event_t) (value : Int)
    (w : World R H) :
    ∃ w1 seg, call_mode_func env (some h) event value w = some w1 ∧
      w1.trace = w.trace ++ .mode_func h event value :: seg ∧ events seg = [] ∧
      w1.curr_acq_mode_func = w.curr_acq_mode_func ∧ w1.job_enabled = w.job_enabled ∧
      w1.hy_regs = w.hy_regs ∧
      (w.job_enabled .JOB_ACQUISITION = false → stays_disabled seg = true) ∧
      (h = .acq_mode_func_misc → w1.curr_int_mask = 0 ∧ w1.q_head = 0 ∧ w1.q_tail = 0) := by
  cases h with
  | acq_mode_func_misc =>
    obtain ⟨a, b, c, seg, t, e, d⟩ :=
      frame_misc event value (emit (.mode_func .acq_mode_func_misc event value) w)
    refine ⟨_, seg, rfl, ?_, e, a, c, b, d, fun _ => misc_state event value _⟩
    rw [t]; simp [emit]
  | other n =>
    obtain ⟨a, b, c, seg, t, e, d⟩ :=
      frame_exec (env.mode_func_body n event value w.mode_state)
        (emit (.mode_func (.other n) event value) w)
    refine ⟨_, seg, rfl, ?_, e, a, c, b, d, fun hh => by cases hh⟩
    rw [t]; simp [emit]

theorem set_mode_spec (env : Env R H) (mode : Nat) (submode : Int) (w : World R H)
    (h g : acq_mode_func) (hcur : w.curr_acq_mode_func = some h)
    (hreg : env.acq_mode_funcs[mode]? = some g) :
    ∃ w1 body, acq_set_mode env mode submode w = some w1 ∧
      w1.trace = w.trace ++ (.job_disable .JOB_ACQUISITION :: body ++
        [.job_resume .JOB_ACQUISITION (w.job_enabled .JOB_ACQUISITION)]) ∧
      events body = [(h, .ACQ_EVENT_STOP, 0), (g, .ACQ_EVENT_START, submode)] ∧
      stays_disabled body = true ∧
      w1.curr_acq_mode_func = some g ∧ w1.job_enabled = w.job_enabled ∧
      w1.hy_regs = w.hy_regs ∧
      (g = .acq_mode_func_misc → w1.curr_int_mask = 0 ∧ w1.q_head = 0 ∧ w1.q_tail = 0) := by
  obtain ⟨w1, s1, c1, t1, e1, f1, j1, r1, d1, -⟩ :=
    call_frame env h .ACQ_EVENT_STOP 0 (job_disable .JOB_ACQUISITION w).2
  obtain ⟨w2, s2, c2, t2, e2, f2, j2, r2, d2, m2⟩ :=
    call_frame env g .ACQ_EVENT_START submode { w1 with curr_acq_mode_func := some g }
  have hdis : (job_disable .JOB_ACQUISITION w).2.job_enabled .JOB_ACQUISITION = false := by
    simp [job_disable, emit]
  refine ⟨job_resume .JOB_ACQUISITION (w.job_enabled .JOB_ACQUISITION) w2,
    (.mode_func h .ACQ_EVENT_STOP 0 :: s1) ++ (.mode_func g .ACQ_EVENT_START submode :: s2),
    ?_, ?_, ?_, ?_, ?_, ?_, ?_, ?_⟩
  · have hc : (job_disable .JOB_ACQUISITION w).2.curr_acq_mode_func = some h := hcur
    simp only [acq_set_mode]
    rw [hc, c1]
    simp only [hreg, c2]
    rfl
  · simp only [job_resume, emit, t2, t1]
    simp [job_disable, emit]
  · rw [events_append]; simp [events, e1, e2]
  · rw [stays_disabled_append]
    simp [stays_disabled, job_step, d1 hdis, d2 (by rw [j1]; exact hdis)]
  · simp only [job_resume, emit, f2]
  · funext i
    have := congrFun j2 i
    have := congrFun j1 i
    cases i <;> cases hj : w.job_enabled .JOB_ACQUISITION <;>
      simp_all [job_resume, job_disable, emit]
  · simp only [job_resume, emit, r2, r1]; rfl
  · intro hg; exact m2 hg


theorem set_submode_spec (env : Env R H) (submode : Int) (w : World R H)
    (h : acq_mode_func) (hcur : w.curr_acq_mode_func = some h) :
    ∃ w1 body, acq_set_submode env submode w = some w1 ∧
      w1.trace = w.trace ++ (.job_disable .JOB_ACQUISITION :: body ++
        [.job_resume .JOB_ACQUISITION (w.job_enabled .JOB_ACQUISITION)]) ∧
      events body = [(h, .ACQ_EVENT_SET_SUBMODE, submode)] ∧
      stays_disabled body = true ∧
      w1.curr_acq_mode_func = some h ∧ w1.job_enabled = w.job_enabled := by
  obtain ⟨w1, s1, c1, t1, e1, f1, j1, -, d1, -⟩ :=
    call_frame env h .ACQ_EVENT_SET_SUBMODE submode (job_disable .JOB_ACQUISITION w).2
  have hdis : (job_disable .JOB_ACQUISITION w).2.job_enabled .JOB_ACQUISITION = false := by
    simp [job_disable, emit]
  refine ⟨job_resume .JOB_ACQUISITION (w.job_enabled .JOB_ACQUISITION) w1,
    .mode_func h .ACQ_EVENT_SET_SUBMODE submode :: s1, ?_, ?_, ?_, ?_, ?_, ?_⟩
  · have hc : (job_disable .JOB_ACQUISITION w).2.curr_acq_mode_func = some h := hcur
    simp only [acq_set_submode]
    rw [hc, c1]
    rfl
  · simp only [job_resume, emit, t1]
    simp [job_disable, emit]
  · simp [events, e1]
  · simp [stays_disabled, job_step, d1 hdis]
  · simp only [job_resume, emit, f1]; exact hcur
  · funext i
    have := congrFun j1 i
    cases i <;> cases hj : w.job_enabled .JOB_ACQUISITION <;>
      simp_all [job_resume, job_disable, emit]

theorem init_spec (env : Env R H)
    (hmisc : env.acq_mode_funcs[env.ACQ_MODE_MISC]? = some .acq_mode_func_misc)
    (w : World R H) :
    ∃ w1 seg, acq_init env w = some w1 ∧
      w1.trace = w.trace ++ ([.GPIO_PINSET .HW_PWR_CTL, .GPIO_PINSET .HW_PWR_CTL2,
        .HAL_Delay 10, .store_curr_int_mask 0, .hy_init,
        .mode_func .acq_mode_func_misc .ACQ_EVENT_START env.ACQ_MODE_MISC_SUBMODE_OFF] ++ seg) ∧
      events seg = [] ∧
      w1.curr_acq_mode_func = some .acq_mode_func_misc ∧
      w1.curr_int_mask = 0 ∧ w1.q_head = 0 ∧ w1.q_tail = 0 := by
  obtain ⟨w1, s1, c1, t1, e1, f1, -, -, -, m1⟩ :=
    call_frame env .acq_mode_func_misc .ACQ_EVENT_START env.ACQ_MODE_MISC_SUBMODE_OFF
      { (emit .hy_init (store_curr_int_mask 0 (emit (.HAL_Delay 10)
          (emit (.GPIO_PINSET .HW_PWR_CTL2) (emit (.GPIO_PINSET .HW_PWR_CTL) w))))) with
        curr_acq_mode_func := some .acq_mode_func_misc }
  obtain ⟨m, qh, qt⟩ := m1 rfl
  refine ⟨w1, s1, ?_, ?_, e1, f1, m, qh, qt⟩
  · simp only [acq_init, hmisc]
    exact c1
  · rw [t1]; simp [emit, store_curr_int_mask]

/-- The acquisition job when the AD1 source is not both pending and enabled:
one read of the flag register and nothing else. -/
theorem job_idle (env : Env R H) (w : World R H)
    (hno : ¬ ((w.hy_regs w.hy_reads 0 % 256 &&& w.curr_int_mask) &&& env.HY_REG_INT_AD1 ≠ 0)) :
    acq_handle_job_acquisition env w = some (hy_read_regs .HY_REG_INTF 1 w).2 := by
  simp only [acq_handle_job_acquisition, hy_read_regs, emit]
  rw [if_neg hno]


/-- The acquisition job when the AD1 source is pending and enabled and a handler
is active: the flag register is read, then the data register, then the handler
is called with the value computed from the three bytes read. -/
theorem job_deliver (env : Env R H) (w : World R H) (h : acq_mode_func)
    (hcur : w.curr_acq_mode_func = some h)
    (hyes : (w.hy_regs w.hy_reads 0 % 256 &&& w.curr_int_mask) &&& env.HY_REG_INT_AD1 ≠ 0)
    (b0 b1 b2 : Nat) (hb0 : w.hy_regs (w.hy_reads + 1) 0 % 256 = b0)
    (hb1 : w.hy_regs (w.hy_reads + 1) 1 % 256 = b1)
    (hb2 : w.hy_regs (w.hy_reads + 1) 2 % 256 = b2) :
    ∃ w1 seg, acq_handle_job_acquisition env w = some w1 ∧
      w1.trace = w.trace ++ ([.hy_read_regs .HY_REG_INTF 1, .hy_read_regs .HY_REG_AD1_DATA 3,
        .mode_func h .ACQ_EVENT_NEW_AD1 (int32_of
          (if (b2 <<< 16 ||| b1 <<< 8 ||| b0) &&& 0x800000 ≠ 0 then
              ((b2 <<< 16 ||| b1 <<< 8 ||| b0) ||| 0xFF000000) % 2 ^ 32
            else b2 <<< 16 ||| b1 <<< 8 ||| b0))] ++ seg) ∧
      events seg = [] ∧ w1.curr_acq_mode_func = some h := by
  obtain ⟨w1, s1, c1, t1, e1, f1, -, -, -, -⟩ :=
    call_frame env h .ACQ_EVENT_NEW_AD1 (int32_of
          (if (b2 <<< 16 ||| b1 <<< 8 ||| b0) &&& 0x800000 ≠ 0 then
              ((b2 <<< 16 ||| b1 <<< 8 ||| b0) ||| 0xFF000000) % 2 ^ 32
            else b2 <<< 16 ||| b1 <<< 8 ||| b0))
      (hy_read_regs .HY_REG_AD1_DATA 3 (hy_read_regs .HY_REG_INTF 1 w).2).2
  refine ⟨w1, s1, ?_, ?_, e1, f1.trans hcur⟩
  · rw [← c1]
    unfold acq_handle_job_acquisition
    simp only [hy_read_regs, emit, ne_eq, hyes, not_false_eq_true, ↓reduceIte, hb0, hb1, hb2, hcur]
  · rw [t1]; simp [hy_read_regs, emit]


/-! ## Decoding the AD1 payload: lemmas -/

theorem bytes_or (b0 b1 b2 : Nat) (h0 : b0 < 256) (h1 : b1 < 256) :
    b2 <<< 16 ||| b1 <<< 8 ||| b0 = b0 + 256 * b1 + 65536 * b2 := by
  have e1 : 2 ^ 16 * b2 + 2 ^ 8 * b1 = 2 ^ 16 * b2 ||| 2 ^ 8 * b1 :=
    Nat.mul_add_lt_is_or (by omega) b2
  have e2 : 2 ^ 8 * (2 ^ 8 * b2 + b1) + b0 = 2 ^ 8 * (2 ^ 8 * b2 + b1) ||| b0 :=
    Nat.mul_add_lt_is_or (by omega) _
  have e3 : 2 ^ 8 * (2 ^ 8 * b2 + b1) = 2 ^ 16 * b2 + 2 ^ 8 * b1 := by ring
  rw [Nat.shiftLeft_eq, Nat.shiftLeft_eq, Nat.mul_comm b2, Nat.mul_comm b1, ← e1, ← e3, ← e2]
  ring

theorem bit23 (v : Nat) (hv : v < 2 ^ 24) : (v &&& 0x800000 ≠ 0) ↔ 2 ^ 23 ≤ v := by
  have e : v &&& 0x800000 = (v.testBit 23).toNat * 2 ^ 23 := Nat.and_two_pow v 23
  rw [e, Nat.testBit_to_div_mod]
  by_cases h : v / 2 ^ 23 % 2 = 1
  · simp [h]; omega
  · simp [h]; omega

theorem or_high (v : Nat) (hv : v < 2 ^ 24) : v ||| 0xFF000000 = v + 0xFF000000 := by
  have e : 2 ^ 24 * 255 + v = 2 ^ 24 * 255 ||| v := Nat.mul_add_lt_is_or hv 255
  rw [Nat.or_comm]
  have : (0xFF000000 : Nat) = 2 ^ 24 * 255 := by norm_num
  rw [this, ← e]
  omega

theorem sign_extend_24 (b0 b1 b2 : Nat) (h0 : b0 < 256) (h1 : b1 < 256) (h2 : b2 < 256) :
    int32_of (if (b2 <<< 16 ||| b1 <<< 8 ||| b0) &&& 0x800000 ≠ 0 then
        ((b2 <<< 16 ||| b1 <<< 8 ||| b0) ||| 0xFF000000) % 2 ^ 32
      else b2 <<< 16 ||| b1 <<< 8 ||| b0) =
    if b0 + 256 * b1 + 65536 * b2 < 2 ^ 23 then ((b0 + 256 * b1 + 65536 * b2 : Nat) : Int)
    else ((b0 + 256 * b1 + 65536 * b2 : Nat) : Int) - 2 ^ 24 := by
  rw [bytes_or b0 b1 b2 h0 h1]
  generalize hv : b0 + 256 * b1 + 65536 * b2 = v
  have hlt : v < 2 ^ 24 := by omega
  by_cases hb : 2 ^ 23 ≤ v
  · rw [if_pos ((bit23 v hlt).mpr hb), or_high v hlt, if_neg (by omega)]
    unfold int32_of
    norm_num at hlt hb ⊢
    split <;> omega
  · rw [if_neg (fun h => hb ((bit23 v hlt).mp h)), if_pos (by omega)]
    unfold int32_of
    norm_num at hlt hb ⊢
    omega

theorem and_bit (f m k : Nat) :
    ((f &&& m) &&& 2 ^ k ≠ 0) ↔ (f &&& 2 ^ k ≠ 0 ∧ m &&& 2 ^ k ≠ 0) := by
  have hp : 2 ^ k ≠ 0 := by positivity
  rw [Nat.and_two_pow, Nat.and_two_pow, Nat.and_two_pow, Nat.testBit_and]
  cases f.testBit k <;> cases m.testBit k <;> simp [hp]

theorem set_int_mask_mask (mask : Nat) (w : World R H) :
    (acq_set_int_mask mask w).curr_int_mask = mask := by
  by_cases h : mask = 0 <;>
    simp [acq_set_int_mask, store_curr_int_mask, job_disable, job_resume, hy_read_regs,
      hy_write_regs, emit, h]

/-! ## The acquisition job: properties -/

/-- C4, 24-bit sign extension: when the AD1 source is pending and enabled and
the chip answers the data read with bytes b0, b1, b2, the acquisition job calls
the active handler exactly once, with ACQ_EVENT_NEW_AD1 and the two's-complement
reading of the 24-bit little-endian number v = b0 + 256*b1 + 65536*b2: v when
v < 2^23, v - 2^24 otherwise. -/
theorem ad1_sign_extension (env : Env R H) (w : World R H) (h : acq_mode_func)
    (hcur : w.curr_acq_mode_func = some h)
    (hpend : (w.hy_regs w.hy_reads 0 % 256 &&& w.curr_int_mask) &&& env.HY_REG_INT_AD1 ≠ 0)
    (b0 b1 b2 : Nat) (hb0 : w.hy_regs (w.hy_reads + 1) 0 % 256 = b0)
    (hb1 : w.hy_regs (w.hy_reads + 1) 1 % 256 = b1)
    (hb2 : w.hy_regs (w.hy_reads + 1) 2 % 256 = b2) :
    ∃ w1, acq_handle_job_acquisition env w = some w1 ∧
      events (added w w1) = [(h, .ACQ_EVENT_NEW_AD1,
        if b0 + 256 * b1 + 65536 * b2 < 2 ^ 23 then ((b0 + 256 * b1 + 65536 * b2 : Nat) : Int)
        else ((b0 + 256 * b1 + 65536 * b2 : Nat) : Int) - 2 ^ 24)] := by
  obtain ⟨w1, seg, c, t, e, -⟩ := job_deliver env w h hcur hpend b0 b1 b2 hb0 hb1 hb2
  refine ⟨w1, c, ?_⟩
  rw [added_eq w w1 _ t, events_append, e,
    sign_extend_24 b0 b1 b2 (by omega) (by omega) (by omega)]
  rfl

/-- Witness for C4: the measuring handler is active with AD1 enabled, the chip
reports AD1 pending; payload 34 12 00 is delivered as 0x001234 and payload
00 00 80 as -8388608. -/
theorem ad1_sign_extension_witness :
    (∃ w1, acq_handle_job_acquisition sample_env (sample_measure [[4], [0x34, 0x12, 0x00]])
        = some w1 ∧
      events (added (sample_measure [[4], [0x34, 0x12, 0x00]]) w1) =
        [(.other 0, .ACQ_EVENT_NEW_AD1, 0x001234)]) ∧
    (∃ w1, acq_handle_job_acquisition sample_env (sample_measure [[4], [0x00, 0x00, 0x80]])
        = some w1 ∧
      events (added (sample_measure [[4], [0x00, 0x00, 0x80]]) w1) =
        [(.other 0, .ACQ_EVENT_NEW_AD1, -8388608)]) :=
  ⟨ad1_sign_extension sample_env (sample_measure [[4], [0x34, 0x12, 0x00]]) (.other 0) rfl
      (by decide) 0x34 0x12 0x00 rfl rfl rfl,
   ad1_sign_extension sample_env (sample_measure [[4], [0x00, 0x00, 0x80]]) (.other 0) rfl
      (by decide) 0x00 0x00 0x80 rfl rfl rfl⟩

/-- C5, mask filtering: after `acq_set_int_mask(m)`, with a handler active and
AD1 a single bit, the acquisition job calls the handler exactly once with
ACQ_EVENT_NEW_AD1 when the AD1 bit is set both in the flag byte f the chip
answers and in m, and calls no handler otherwise, whatever the state was before
the mask was set. -/
theorem mask_filtering (env : Env R H) (w : World R H) (m : Nat) (h : acq_mode_func)
    (hcur : w.curr_acq_mode_func = some h) (k : Nat) (hbit : env.HY_REG_INT_AD1 = 2 ^ k) :
    ∃ w2, acq_handle_job_acquisition env (acq_set_int_mask m w) = some w2 ∧
      (((acq_set_int_mask m w).hy_regs (acq_set_int_mask m w).hy_reads 0 % 256
            &&& env.HY_REG_INT_AD1 ≠ 0 ∧ m &&& env.HY_REG_INT_AD1 ≠ 0) →
        ∃ v, events (added (acq_set_int_mask m w) w2) = [(h, .ACQ_EVENT_NEW_AD1, v)]) ∧
      (¬ ((acq_set_int_mask m w).hy_regs (acq_set_int_mask m w).hy_reads 0 % 256
            &&& env.HY_REG_INT_AD1 ≠ 0 ∧ m &&& env.HY_REG_INT_AD1 ≠ 0) →
        events (added (acq_set_int_mask m w) w2) = []) := by
  have hm := set_int_mask_mask m w
  have hc : (acq_set_int_mask m w).curr_acq_mode_func = some h :=
    (frame_set_int_mask m w).1.trans hcur
  have hiff := and_bit ((acq_set_int_mask m w).hy_regs (acq_set_int_mask m w).hy_reads 0 % 256)
    m k
  rw [← hbit] at hiff
  by_cases hp : ((acq_set_int_mask m w).hy_regs (acq_set_int_mask m w).hy_reads 0 % 256 &&&
      (acq_set_int_mask m w).curr_int_mask) &&& env.HY_REG_INT_AD1 ≠ 0
  · obtain ⟨w2, seg, c, t, e, -⟩ :=
      job_deliver env (acq_set_int_mask m w) h hc hp _ _ _ rfl rfl rfl
    refine ⟨w2, c, fun _ => ?_, fun hn => ?_⟩
    · rw [added_eq _ w2 _ t, events_append, e]; exact ⟨_, rfl⟩
    · rw [hm] at hp; exact absurd (hiff.mp hp) hn
  · refine ⟨_, job_idle env _ hp, fun hy => ?_, fun _ => ?_⟩
    · rw [hm] at hp; exact absurd (hiff.mpr hy) hp
    · simp [added, hy_read_regs, emit, events]

/-- Witness for C5: mask 4 (AD1) is set while stale flags are pending (first
answer 0xFF, drained by the mask change); the job then reads flags 0x04. -/
theorem mask_filtering_witness :
    ∃ w2, acq_handle_job_acquisition sample_env
        (acq_set_int_mask 4 (sample_measure [[0xFF], [4], [1, 2, 3]])) = some w2 ∧
      (((acq_set_int_mask 4 (sample_measure [[0xFF], [4], [1, 2, 3]])).hy_regs
            (acq_set_int_mask 4 (sample_measure [[0xFF], [4], [1, 2, 3]])).hy_reads 0 % 256
            &&& sample_env.HY_REG_INT_AD1 ≠ 0 ∧ 4 &&& sample_env.HY_REG_INT_AD1 ≠ 0) →
        ∃ v, events (added (acq_set_int_mask 4 (sample_measure [[0xFF], [4], [1, 2, 3]])) w2) =
          [(.other 0, .ACQ_EVENT_NEW_AD1, v)]) ∧
      (¬ ((acq_set_int_mask 4 (sample_measure [[0xFF], [4], [1, 2, 3]])).hy_regs
            (acq_set_int_mask 4 (sample_measure [[0xFF], [4], [1, 2, 3]])).hy_reads 0 % 256
            &&& sample_env.HY_REG_INT_AD1 ≠ 0 ∧ 4 &&& sample_env.HY_REG_INT_AD1 ≠ 0) →
        events (added (acq_set_int_mask 4 (sample_measure [[0xFF], [4], [1, 2, 3]])) w2) = []) :=
  mask_filtering sample_env (sample_measure [[0xFF], [4], [1, 2, 3]]) 4 (.other 0) rfl 2 rfl


theorem events_call_body (body : List Effect) (e : Bool) :
    events (.job_disable .JOB_ACQUISITION :: body ++ [.job_resume .JOB_ACQUISITION e]) =
      events body := by
  simp [events, events_append]

theorem set_modes_spec (env : Env R H) (calls : List (Nat × Int)) :
    ∀ (w : World R H) (h : acq_mode_func), w.curr_acq_mode_func = some h →
      (∀ c ∈ calls, c.1 < env.acq_mode_funcs.length) →
      ∃ w2 seg, set_modes env calls w = some w2 ∧ w2.trace = w.trace ++ seg ∧
        events seg = expected_events env.acq_mode_funcs h calls ∧
        w2.curr_acq_mode_func = some (last_handler env.acq_mode_funcs h calls) := by
  induction calls with
  | nil => intro w h hcur _; exact ⟨w, [], rfl, by simp, rfl, hcur⟩
  | cons c cs ih =>
    intro w h hcur hv
    have hlt := hv c (List.mem_cons_self c cs)
    have hreg : env.acq_mode_funcs[c.1]? = some env.acq_mode_funcs[c.1] :=
      List.getElem?_eq_getElem hlt
    obtain ⟨w1, body, c1, t1, e1, -, f1, -, -, -⟩ :=
      set_mode_spec env c.1 c.2 w h _ hcur hreg
    obtain ⟨w2, seg, c2, t2, e2, f2⟩ :=
      ih w1 _ f1 (fun x hx => hv x (List.mem_cons_of_mem c hx))
    refine ⟨w2, (.job_disable .JOB_ACQUISITION :: body ++
        [.job_resume .JOB_ACQUISITION (w.job_enabled .JOB_ACQUISITION)]) ++ seg, ?_, ?_, ?_, ?_⟩
    · simp only [set_modes, c1]; exact c2
    · rw [t2, t1, List.append_assoc]
    · rw [events_append, events_call_body, e1, e2]
      simp only [expected_events, hreg]
      rfl
    · simp only [last_handler, hreg]; exact f2

theorem expected_events_paired (reg : List acq_mode_func) (calls : List (Nat × Int)) :
    ∀ cur : acq_mode_func, starts_paired [cur] (expected_events reg cur calls) = true := by
  induction calls with
  | nil => intro cur; rfl
  | cons c cs ih =>
    intro cur
    simp only [expected_events]
    cases hreg : reg[c.1]? with
    | none => rfl
    | some g => simp [starts_paired, ih g]

/-! ## The mode dispatcher: properties -/

/-- C6, mode transition STOP/START pairing: from an initialised state every
`acq_set_mode` call with a valid mode calls the handler that was active with
STOP and value 0, then the registry handler of the mode with START and the
submode, and that handler becomes the active one; a list of such calls issued
after `acq_init` therefore produces the handler calls START(misc), then STOP(old)
and START(new) call after call, in which no handler is sent START twice without
a STOP in between. -/
theorem mode_transition_pairing (env : Env R H)
    (hmisc : env.acq_mode_funcs[env.ACQ_MODE_MISC]? = some .acq_mode_func_misc)
    (w0 : World R H) (calls : List (Nat × Int))
    (hvalid : ∀ c ∈ calls, c.1 < env.acq_mode_funcs.length) :
    (∀ (w : World R H) (h g : acq_mode_func) (mode : Nat) (submode : Int),
      w.curr_acq_mode_func = some h → env.acq_mode_funcs[mode]? = some g →
      ∃ w1, acq_set_mode env mode submode w = some w1 ∧
        events (added w w1) = [(h, .ACQ_EVENT_STOP, 0), (g, .ACQ_EVENT_START, submode)] ∧
        w1.curr_acq_mode_func = some g) ∧
    ∃ w1 w2, acq_init env w0 = some w1 ∧ set_modes env calls w1 = some w2 ∧
      events (added w1 w2) = expected_events env.acq_mode_funcs .acq_mode_func_misc calls ∧
      events (added w0 w2) =
        (.acq_mode_func_misc, .ACQ_EVENT_START, env.ACQ_MODE_MISC_SUBMODE_OFF) ::
          expected_events env.acq_mode_funcs .acq_mode_func_misc calls ∧
      starts_paired [] (events (added w0 w2)) = true ∧
      w2.curr_acq_mode_func =
        some (last_handler env.acq_mode_funcs .acq_mode_func_misc calls) := by
  constructor
  · intro w h g mode submode hcur hreg
    obtain ⟨w1, body, c1, t1, e1, -, f1, -⟩ := set_mode_spec env mode submode w h g hcur hreg
    exact ⟨w1, c1, by rw [added_eq w w1 _ t1, events_call_body, e1], f1⟩
  · obtain ⟨w1, s1, c1, t1, e1, f1, -⟩ := init_spec env hmisc w0
    obtain ⟨w2, s2, c2, t2, e2, f2⟩ := set_modes_spec env calls w1 _ f1 hvalid
    have hall : events (added w0 w2) =
        (.acq_mode_func_misc, .ACQ_EVENT_START, env.ACQ_MODE_MISC_SUBMODE_OFF) ::
          expected_events env.acq_mode_funcs .acq_mode_func_misc calls := by
      rw [added_eq w0 w2 _ (by rw [t2, t1, List.append_assoc]), events_append, events_append,
        e1, e2]
      rfl
    refine ⟨w1, w2, c1, c2, by rw [added_eq w1 w2 _ t2, e2], hall, ?_, f2⟩
    rw [hall]
    simp [starts_paired, expected_events_paired]

/-- Witness for C6: after `acq_init`, switch to the measuring mode, to it again,
and back to misc. -/
theorem mode_transition_pairing_witness :
    ∃ w1 w2, acq_init sample_env (sample 0) = some w1 ∧
      set_modes sample_env [(1, 7), (1, 8), (0, 0)] w1 = some w2 ∧
      events (added (sample 0) w2) =
        [(.acq_mode_func_misc, .ACQ_EVENT_START, 0),
         (.acq_mode_func_misc, .ACQ_EVENT_STOP, 0), (.other 0, .ACQ_EVENT_START, 7),
         (.other 0, .ACQ_EVENT_STOP, 0), (.other 0, .ACQ_EVENT_START, 8),
         (.other 0, .ACQ_EVENT_STOP, 0), (.acq_mode_func_misc, .ACQ_EVENT_START, 0)] ∧
      w2.curr_acq_mode_func = some .acq_mode_func_misc := by
  obtain ⟨-, w1, w2, a, b, -, c, -, d⟩ :=
    mode_transition_pairing sample_env rfl (sample 0) [(1, 7), (1, 8), (0, 0)] (by decide)
  exact ⟨w1, w2, a, b, c, d⟩

/-- C7, job suspension nests: whatever the enabled state e of the acquisition
job before the call, each of `acq_set_int_mask`, `acq_set_mode` and
`acq_set_submode` first calls `job_disable`, last calls `job_resume` with e, keeps
the job disabled after every call in between (also the nested `job_disable` and
`job_resume` calls of an `acq_set_int_mask` made by the invoked handler), and
returns with the job in state e. -/
theorem job_suspension_nests (env : Env R H) (w : World R H) (mask mode : Nat) (submode : Int)
    (h g : acq_mode_func) (hcur : w.curr_acq_mode_func = some h)
    (hreg : env.acq_mode_funcs[mode]? = some g) :
    (∃ body, added w (acq_set_int_mask mask w) =
        .job_disable .JOB_ACQUISITION :: body ++
          [.job_resume .JOB_ACQUISITION (w.job_enabled .JOB_ACQUISITION)] ∧
      stays_disabled body = true ∧
      (acq_set_int_mask mask w).job_enabled .JOB_ACQUISITION =
        w.job_enabled .JOB_ACQUISITION) ∧
    (∃ w1 body, acq_set_mode env mode submode w = some w1 ∧
      added w w1 = .job_disable .JOB_ACQUISITION :: body ++
          [.job_resume .JOB_ACQUISITION (w.job_enabled .JOB_ACQUISITION)] ∧
      stays_disabled body = true ∧
      w1.job_enabled .JOB_ACQUISITION = w.job_enabled .JOB_ACQUISITION) ∧
    (∃ w1 body, acq_set_submode env submode w = some w1 ∧
      added w w1 = .job_disable .JOB_ACQUISITION :: body ++
          [.job_resume .JOB_ACQUISITION (w.job_enabled .JOB_ACQUISITION)] ∧
      stays_disabled body = true ∧
      w1.job_enabled .JOB_ACQUISITION = w.job_enabled .JOB_ACQUISITION) := by
  refine ⟨?_, ?_, ?_⟩
  · refine ⟨(.store_curr_int_mask mask ::
        (if mask ≠ 0 then [.hy_read_regs .HY_REG_INTF 1] else [])) ++
        [.hy_write_regs .HY_REG_INTE 1 [mask]], ?_, ?_, ?_⟩
    · rw [added_eq w _ _ (set_int_mask_trace mask w)]; simp
    · by_cases hm : mask = 0 <;> simp [hm, stays_disabled, job_step]
    · rw [set_int_mask_job]
  · obtain ⟨w1, body, c1, t1, -, d1, -, j1, -⟩ := set_mode_spec env mode submode w h g hcur hreg
    exact ⟨w1, body, c1, added_eq w w1 _ t1, d1, by rw [j1]⟩
  · obtain ⟨w1, body, c1, t1, -, d1, -, j1⟩ := set_submode_spec env submode w h hcur
    exact ⟨w1, body, c1, added_eq w w1 _ t1, d1, by rw [j1]⟩


/-- Witness for C7: the acquisition job is disabled by an outer caller, the
measuring handler is active; switching to misc makes both handlers call
`acq_set_int_mask` inside `acq_set_mode`, and the job is still disabled on
return. -/
theorem job_suspension_nests_witness :
    ∃ w1 body, acq_set_mode sample_env 0 0 sample_paused = some w1 ∧
      added sample_paused w1 = .job_disable .JOB_ACQUISITION :: body ++
          [.job_resume .JOB_ACQUISITION false] ∧
      stays_disabled body = true ∧
      w1.job_enabled .JOB_ACQUISITION = false :=
  (job_suspension_nests sample_env sample_paused 4 0 0 (.other 0) .acq_mode_func_misc
    rfl rfl).2.1

/-! ## Engine lifecycle: properties -/

theorem q_view_zero (w : World R H) (hh : w.q_head = 0) (ht : w.q_tail = 0) : q_view w = [] := by
  simp [q_view, q_count, hh, ht]

/-- C8, scenario A: whatever the state before (also one left by an earlier
session and `acq_deinit`), `acq_init` returns with the misc handler active, the
mirrored mask 0 and the queue empty with head = tail = 0, so these four do not
depend on the prior state; the acquisition job run next calls no handler,
whatever the chip answers for the flag register, and leaves the queue empty. -/
theorem init_state (env : Env R H)
    (hmisc : env.acq_mode_funcs[env.ACQ_MODE_MISC]? = some .acq_mode_func_misc)
    (w : World R H) :
    ∃ w1 w2, acq_init env w = some w1 ∧
      w1.curr_acq_mode_func = some .acq_mode_func_misc ∧ w1.curr_int_mask = 0 ∧
      w1.q_head = 0 ∧ w1.q_tail = 0 ∧ q_view w1 = [] ∧
      acq_handle_job_acquisition env w1 = some w2 ∧ events (added w1 w2) = [] ∧
      w2.curr_acq_mode_func = some .acq_mode_func_misc ∧ w2.curr_int_mask = 0 ∧
      w2.q_head = 0 ∧ w2.q_tail = 0 ∧ q_view w2 = [] := by
  obtain ⟨w1, s1, c1, -, -, f1, m1, qh, qt⟩ := init_spec env hmisc w
  have hno : ¬ ((w1.hy_regs w1.hy_reads 0 % 256 &&& w1.curr_int_mask) &&&
      env.HY_REG_INT_AD1 ≠ 0) := by
    rw [m1]; simp
  have hj := job_idle env w1 hno
  exact ⟨w1, _, c1, f1, m1, qh, qt, q_view_zero w1 qh qt, hj,
    by simp [added, hy_read_regs, emit, events], f1, m1, qh, qt, q_view_zero _ qh qt⟩

/-- Witness for C8: `acq_init` on a state with stale contents: a full queue, a
measuring handler still registered as active, mask 4 and AD1 pending. -/
theorem init_state_witness :
    ∃ w1 w2, acq_init sample_env sample_stale = some w1 ∧
      w1.curr_acq_mode_func = some .acq_mode_func_misc ∧ w1.curr_int_mask = 0 ∧
      w1.q_head = 0 ∧ w1.q_tail = 0 ∧ q_view w1 = [] ∧
      acq_handle_job_acquisition sample_env w1 = some w2 ∧ events (added w1 w2) = [] ∧
      w2.curr_acq_mode_func = some .acq_mode_func_misc ∧ w2.curr_int_mask = 0 ∧
      w2.q_head = 0 ∧ w2.q_tail = 0 ∧ q_view w2 = [] :=
  init_state sample_env rfl sample_stale

/-- C9, counterexample: `acq_deinit` from the sample state with the measuring
handler active returns with the handler pointer null, not with the misc
handler. -/
theorem deinit_handler_null :
    (acq_deinit sample_env (sample_measure [])).map World.curr_acq_mode_func = some none ∧
    (acq_deinit sample_env (sample_measure [])).map World.curr_acq_mode_func ≠
      some (some .acq_mode_func_misc) := by
  decide

/-- C9, amended: from every initialised state (any active handler, any mask,
any queue contents) `acq_deinit` returns with the mirrored mask 0, the queue
empty with head = tail = 0, and the active handler pointer null; the handler
calls it makes are STOP to the handler that was active and START with submode
off to the misc handler. -/
theorem deinit_state (env : Env R H)
    (hmisc : env.acq_mode_funcs[env.ACQ_MODE_MISC]? = some .acq_mode_func_misc)
    (w : World R H) (h : acq_mode_func) (hcur : w.curr_acq_mode_func = some h) :
    ∃ w1, acq_deinit env w = some w1 ∧
      w1.curr_int_mask = 0 ∧ w1.q_head = 0 ∧ w1.q_tail = 0 ∧ q_view w1 = [] ∧
      w1.curr_acq_mode_func = none ∧
      events (added w w1) = [(h, .ACQ_EVENT_STOP, 0),
        (.acq_mode_func_misc, .ACQ_EVENT_START, env.ACQ_MODE_MISC_SUBMODE_OFF)] := by
  obtain ⟨w1, body, c1, t1, e1, -, -, -, -, m1⟩ :=
    set_mode_spec env env.ACQ_MODE_MISC env.ACQ_MODE_MISC_SUBMODE_OFF w h _ hcur hmisc
  obtain ⟨m, qh, qt⟩ := m1 rfl
  refine ⟨emit (.GPIO_PINRST .HW_PWR_CTL) (emit (.GPIO_PINRST .HW_PWR_CTL2)
      (emit .hy_deinit { w1 with curr_acq_mode_func := none })),
    by simp only [acq_deinit, c1], m, qh, qt, q_view_zero _ qh qt, rfl, ?_⟩
  have ht : (emit (.GPIO_PINRST .HW_PWR_CTL) (emit (.GPIO_PINRST .HW_PWR_CTL2)
      (emit .hy_deinit { w1 with curr_acq_mode_func := none }))).trace =
      w.trace ++ ((.job_disable .JOB_ACQUISITION :: body ++
        [.job_resume .JOB_ACQUISITION (w.job_enabled .JOB_ACQUISITION)]) ++
        [.hy_deinit, .GPIO_PINRST .HW_PWR_CTL2, .GPIO_PINRST .HW_PWR_CTL]) := by
    simp [emit, t1]
  rw [added_eq w _ _ ht, events_append, events_call_body, e1]
  rfl

/-- Witness for C9 (amended): `acq_deinit` from the sample state with the
measuring handler active and mask 4. -/
theorem deinit_state_witness :
    ∃ w1, acq_deinit sample_env (sample_measure []) = some w1 ∧
      w1.curr_int_mask = 0 ∧ w1.q_head = 0 ∧ w1.q_tail = 0 ∧ q_view w1 = [] ∧
      w1.curr_acq_mode_func = none ∧
      events (added (sample_measure []) w1) = [(.other 0, .ACQ_EVENT_STOP, 0),
        (.acq_mode_func_misc, .ACQ_EVENT_START, 0)] :=
  deinit_state sample_env rfl (sample_measure []) (.other 0) rfl

/-! ## The readings queue as a bounded FIFO: lemmas -/

theorem q_count_le (w : World R H) : q_count w ≤ 7 := by
  have := q_count_eq w
  omega

theorem put_full (r : R) (w : World R H) (hr : q_inrange w) (hc : q_count w = 7) :
    (acq_put_reading r w).q_head = w.q_head ∧ (acq_put_reading r w).queue = w.queue ∧
      q_view (acq_put_reading r w) = q_view w := by
  have hcnt := q_count_eq w
  obtain ⟨⟨a, b⟩, c, e⟩ := hr
  simp only [ACQ_READING_QUEUE_SIZE] at b e
  have hl : Int.land (w.q_head + 1) Q_MASK = w.q_tail := by
    rw [land_Q_MASK _ (by omega) (by omega)]; omega
  have h1 : (acq_put_reading r w).q_head = w.q_head := by
    rw [put_q_head, if_neg (by simpa using hl)]
  have h2 : (acq_put_reading r w).queue = w.queue := by
    rw [put_queue, if_neg (by simpa using hl)]
  refine ⟨h1, h2, ?_⟩
  simp only [q_view, q_count, h1, h2, put_q_tail]

theorem put_fifo (r : R) (w : World R H) (hr : q_inrange w) :
    q_view (acq_put_reading r w) = fifo_put r (q_view w) := by
  unfold fifo_put
  rw [q_view_length]
  by_cases hc : q_count w < 7
  · rw [if_pos hc, put_view r w hr hc]
  · rw [if_neg hc]
    exact (put_full r w hr (by have := q_count_le w; omega)).2.2

theorem get_fifo (d : R) (w : World R H) (hr : q_inrange w) :
    ((acq_get_reading d w).1, (acq_get_reading d w).2.1) = (fifo_get d (q_view w)).1 ∧
      q_view (acq_get_reading d w).2.2 = (fifo_get d (q_view w)).2 := by
  cases hv : q_view w with
  | nil =>
    obtain ⟨a, b, c⟩ := get_view_nil d w hr hv
    simp [fifo_get, a, b, c]
  | cons x xs =>
    obtain ⟨a, b, c⟩ := get_view_cons d w hr x xs hv
    simp [fifo_get, a, b, c]

theorem clear_inrange (w : World R H) : q_inrange (acq_clear_readings w) := by
  simp [q_inrange, acq_clear_readings, emit, ACQ_READING_QUEUE_SIZE]

theorem clear_view (w : World R H) : q_view (acq_clear_readings w) = [] :=
  q_view_zero _ rfl rfl

theorem run_q_fifo (d : R) (ops : List (QOp R)) : ∀ w : World R H, q_inrange w →
    (run_q d ops w).1 = (fifo_run d ops (q_view w)).1 ∧
      q_view (run_q d ops w).2 = (fifo_run d ops (q_view w)).2 ∧
      q_inrange (run_q d ops w).2 := by
  induction ops with
  | nil => intro w hr; exact ⟨rfl, rfl, hr⟩
  | cons op t ih =>
    intro w hr
    cases op with
    | put r =>
      have h := ih (acq_put_reading r w) (put_inrange r w hr)
      rw [put_fifo r w hr] at h
      exact h
    | get =>
      obtain ⟨g1, g2⟩ := get_fifo d w hr
      obtain ⟨h1, h2, h3⟩ := ih (acq_get_reading d w).2.2 (get_inrange d w hr)
      rw [g2] at h1 h2
      refine ⟨?_, h2, h3⟩
      show ((acq_get_reading d w).1, (acq_get_reading d w).2.1) ::
          (run_q d t (acq_get_reading d w).2.2).1 = _
      rw [g1, h1]
      rfl
    | clear =>
      have h := ih (acq_clear_readings w) (clear_inrange w)
      rw [clear_view] at h
      exact h

theorem put_all_take (ps : List R) : ∀ w : World R H, q_inrange w →
    q_view (put_all ps w) = (q_view w ++ ps).take 7 := by
  induction ps with
  | nil =>
    intro w _
    have := q_count_le w
    simp [put_all, List.take_of_length_le, q_view_length, this]
  | cons p ps ih =>
    intro w hr
    show q_view (put_all ps (acq_put_reading p w)) = _
    rw [ih _ (put_inrange p w hr), put_fifo p w hr]
    unfold fifo_put
    by_cases hc : (q_view w).length < 7
    · rw [if_pos hc, List.append_assoc]; rfl
    · rw [if_neg hc]
      have hl : (q_view w).length = 7 := by
        have := q_count_le w; rw [q_view_length] at hc ⊢; omega
      rw [List.take_append_of_le_length (by omega), List.take_append_of_le_length (by omega)]


/-! ## The readings queue: pop, capacity, refinement, bounds -/

/-- C11, pop on empty and non-empty: with both indices in 0..7,
`acq_get_reading` returns false exactly when head equals tail, and then leaves
head, tail, the slots and the output as they were; otherwise it returns true,
writes the slot at tail (the oldest stored reading) to the output, advances
tail by one modulo 8 and leaves head and the slots as they were. -/
theorem pop_empty_nonempty (w : World R H) (d : R) (hr : q_inrange w) :
    ((acq_get_reading d w).1 = false ↔ w.q_head = w.q_tail) ∧
    (w.q_head = w.q_tail →
      (acq_get_reading d w).2.1 = d ∧
      (acq_get_reading d w).2.2.q_head = w.q_head ∧
      (acq_get_reading d w).2.2.q_tail = w.q_tail ∧
      (acq_get_reading d w).2.2.queue = w.queue) ∧
    (w.q_head ≠ w.q_tail →
      (acq_get_reading d w).1 = true ∧
      (acq_get_reading d w).2.1 = w.queue w.q_tail ∧
      (q_view w).head? = some (w.queue w.q_tail) ∧
      (acq_get_reading d w).2.2.q_tail = (w.q_tail + 1) % ACQ_READING_QUEUE_SIZE ∧
      (acq_get_reading d w).2.2.q_head = w.q_head ∧
      (acq_get_reading d w).2.2.queue = w.queue) := by
  have hcnt := q_count_eq w
  have hr0 := hr
  obtain ⟨⟨a, b⟩, c, e⟩ := hr
  simp only [ACQ_READING_QUEUE_SIZE] at b e
  refine ⟨by rw [get_flag]; simp, fun he => ?_, fun hne => ?_⟩
  · exact ⟨by rw [get_value, if_neg (by simpa using he)], get_q_head d w,
      by rw [get_q_tail, if_neg (by simpa using he)], get_queue d w⟩
  · have hv : (acq_get_reading d w).2.1 = w.queue w.q_tail := by rw [get_value, if_pos hne]
    refine ⟨by rw [get_flag]; simpa using hne, hv, ?_, ?_, get_q_head d w, get_queue d w⟩
    · cases hq : q_view w with
      | nil =>
        have := q_view_length w
        rw [hq, List.length_nil] at this
        omega
      | cons x xs =>
        rw [← hv, (get_view_cons d w hr0 x xs hq).2.1]
        rfl
    · rw [get_q_tail, if_pos hne, land_Q_MASK _ (by omega) (by omega)]
      rfl

/-- Witness for C11: the full sample queue, head 2 and tail 3. -/
theorem pop_empty_nonempty_witness :
    (acq_get_reading 0 sample_full).1 = true ∧
    (acq_get_reading 0 sample_full).2.1 = 103 ∧
    (acq_get_reading 0 sample_full).2.2.q_tail = 4 ∧
    (acq_get_reading 0 sample_full).2.2.q_head = 2 := by
  obtain ⟨a, b, -, c, e, -⟩ := (pop_empty_nonempty sample_full 0 (by decide)).2.2 (by decide)
  exact ⟨a, b, c, e⟩

/-- C12, full/empty characterisation and capacity size-1: with both indices in
0..7, `acq_put_reading` stores the reading (the stored readings grow by it, the
head advances) exactly when head+1 modulo 8 differs from tail and otherwise
leaves the stored readings as they were; the queue holds no reading exactly when
head equals tail; and from an empty queue at any position, of 8 pushes in a row
the first 7 are stored and the 8th is dropped. -/
theorem full_empty_capacity (w : World R H) (r : R) (hr : q_inrange w) :
    (q_view (acq_put_reading r w) = q_view w ++ [r] ↔
      (w.q_head + 1) % ACQ_READING_QUEUE_SIZE ≠ w.q_tail) ∧
    (q_view (acq_put_reading r w) = q_view w ↔
      (w.q_head + 1) % ACQ_READING_QUEUE_SIZE = w.q_tail) ∧
    ((acq_put_reading r w).q_head ≠ w.q_head ↔
      (w.q_head + 1) % ACQ_READING_QUEUE_SIZE ≠ w.q_tail) ∧
    (q_view w = [] ↔ w.q_head = w.q_tail) ∧
    (q_view w).length ≤ 7 ∧
    (w.q_head = w.q_tail → ∀ ps : List R, ps.length = 8 →
      q_view (put_all ps w) = ps.take 7 ∧
      q_view (put_all ps w) = q_view (put_all (ps.take 7) w)) := by
  have hcnt := q_count_eq w
  have hle := q_count_le w
  have hlen := q_view_length w
  have hf := put_fifo r w hr
  have hr0 := hr
  obtain ⟨⟨a, b⟩, c, e⟩ := hr
  simp only [ACQ_READING_QUEUE_SIZE] at b e ⊢
  have hfull : (w.q_head + 1) % 8 = w.q_tail ↔ q_count w = 7 := by omega
  have hhead : (acq_put_reading r w).q_head ≠ w.q_head ↔ (w.q_head + 1) % 8 ≠ w.q_tail := by
    rw [put_q_head, land_Q_MASK _ (by omega) (by omega)]
    split <;> omega
  have hemp : q_view w = [] ↔ w.q_head = w.q_tail := by
    rw [← List.length_eq_zero, hlen]; omega
  unfold fifo_put at hf
  refine ⟨?_, ?_, hhead, hemp, by omega, ?_⟩
  · by_cases hc : (q_view w).length < 7
    · rw [if_pos hc] at hf
      exact ⟨fun _ => by omega, fun _ => hf⟩
    · rw [if_neg hc] at hf
      refine ⟨fun h => ?_, fun h => by omega⟩
      have := congrArg List.length (hf.symm.trans h)
      simp at this
  · by_cases hc : (q_view w).length < 7
    · rw [if_pos hc] at hf
      refine ⟨fun h => ?_, fun h => by omega⟩
      have := congrArg List.length (hf.symm.trans h)
      simp at this
    · rw [if_neg hc] at hf
      exact ⟨fun _ => by omega, fun _ => hf⟩
  · intro he ps hps
    have hv := hemp.mpr he
    have h1 := put_all_take ps w hr0
    have h2 := put_all_take (ps.take 7) w hr0
    rw [hv, List.nil_append] at h1 h2
    rw [h1, h2, List.take_take]
    simp

/-- Witness for C12: eight pushes into the empty sample queue at index 5. -/
theorem full_empty_capacity_witness :
    q_view (put_all [1, 2, 3, 4, 5, 6, 7, 8] (sample 5)) = [1, 2, 3, 4, 5, 6, 7] :=
  ((full_empty_capacity (sample 5) 0 (by decide)).2.2.2.2.2 rfl
    [1, 2, 3, 4, 5, 6, 7, 8] rfl).1

/-- C18, the ring buffer refines a bounded FIFO: with `q_view` (the slots from
tail up to head, modulo 8) as abstraction and both indices in 0..7, a push
appends when fewer than 7 readings are held and changes nothing when 7 are,
a pop returns and removes the first reading or returns false on the empty list,
a clear gives the empty list; so for every sequence of push, pop and clear calls
the flags and readings returned by the pops are those of the bounded FIFO of
capacity 7 started on `q_view`. -/
theorem ring_buffer_refines (w : World R H) (d : R) (hr : q_inrange w) :
    (q_view w).length ≤ 7 ∧
    (∀ r : R, q_view (acq_put_reading r w) =
      if (q_view w).length < 7 then q_view w ++ [r] else q_view w) ∧
    (∀ (x : R) (xs : List R), q_view w = x :: xs →
      (acq_get_reading d w).1 = true ∧ (acq_get_reading d w).2.1 = x ∧
      q_view (acq_get_reading d w).2.2 = xs) ∧
    (q_view w = [] →
      (acq_get_reading d w).1 = false ∧ (acq_get_reading d w).2.1 = d ∧
      q_view (acq_get_reading d w).2.2 = []) ∧
    q_view (acq_clear_readings w) = [] ∧
    ∀ ops : List (QOp R),
      (run_q d ops w).1 = (fifo_run d ops (q_view w)).1 ∧
      q_view (run_q d ops w).2 = (fifo_run d ops (q_view w)).2 := by
  refine ⟨by rw [q_view_length]; exact q_count_le w, fun r => put_fifo r w hr,
    fun x xs hv => get_view_cons d w hr x xs hv, fun hv => get_view_nil d w hr hv,
    clear_view w, fun ops => ?_⟩
  obtain ⟨h1, h2, -⟩ := run_q_fifo d ops w hr
  exact ⟨h1, h2⟩

/-- Witness for C18: pushes and pops interleaved around the end of the array,
with a clear in between, on the sample queue at index 6. -/
theorem ring_buffer_refines_witness :
    (run_q 0 [.put 1, .put 2, .get, .put 3, .get, .get, .get, .put 4, .clear, .get, .put 5, .get]
      (sample 6)).1 =
      [(true, 1), (true, 2), (true, 3), (false, 0), (false, 0), (true, 5)] :=
  ((ring_buffer_refines (sample 6) 0 (by decide)).2.2.2.2.2
    [.put 1, .put 2, .get, .put 3, .get, .get, .get, .put 4, .clear, .get, .put 5, .get]).1

/-- C19, queue indices stay in bounds: from a state with head = tail = 0, after
every sequence of push, pop and clear calls both indices are in 0..7, so the
slot a further push or pop accesses is inside the array, and the number of
stored readings, (head - tail) modulo 8, is at most 7. -/
theorem indices_in_bounds (w : World R H) (d : R) (ops : List (QOp R))
    (hh : w.q_head = 0) (ht : w.q_tail = 0) :
    (0 ≤ (run_q d ops w).2.q_head ∧ (run_q d ops w).2.q_head < ACQ_READING_QUEUE_SIZE) ∧
    (0 ≤ (run_q d ops w).2.q_tail ∧ (run_q d ops w).2.q_tail < ACQ_READING_QUEUE_SIZE) ∧
    ((run_q d ops w).2.q_head - (run_q d ops w).2.q_tail) % ACQ_READING_QUEUE_SIZE ≤ 7 ∧
    q_count (run_q d ops w).2 ≤ 7 := by
  have hr : q_inrange w := by simp [q_inrange, hh, ht, ACQ_READING_QUEUE_SIZE]
  obtain ⟨-, -, h3⟩ := run_q_fifo d ops w hr
  refine ⟨h3.1, h3.2, ?_, q_count_le _⟩
  simp only [ACQ_READING_QUEUE_SIZE]
  omega

/-- Witness for C19: nine pushes, two pops, a clear and a push from the initial
state. -/
theorem indices_in_bounds_witness :
    (0 ≤ (run_q 0 [.put 1, .put 2, .put 3, .put 4, .put 5, .put 6, .put 7, .put 8, .put 9,
        .get, .get, .clear, .put 10] (sample 0)).2.q_head ∧
      (run_q 0 [.put 1, .put 2, .put 3, .put 4, .put 5, .put 6, .put 7, .put 8, .put 9,
        .get, .get, .clear, .put 10] (sample 0)).2.q_head < ACQ_READING_QUEUE_SIZE) ∧
    (0 ≤ (run_q 0 [.put 1, .put 2, .put 3, .put 4, .put 5, .put 6, .put 7, .put 8, .put 9,
        .get, .get, .clear, .put 10] (sample 0)).2.q_tail ∧
      (run_q 0 [.put 1, .put 2, .put 3, .put 4, .put 5, .put 6, .put 7, .put 8, .put 9,
        .get, .get, .clear, .put 10] (sample 0)).2.q_tail < ACQ_READING_QUEUE_SIZE) :=
  ⟨(indices_in_bounds (sample 0) 0 _ rfl rfl).1, (indices_in_bounds (sample 0) 0 _ rfl rfl).2.1⟩

/-! ## Interrupt mask and misc handler: properties -/

/-- C13, counterexample: for mask 4 the store to the mirrored mask comes before
the read that drains the pending flags, not after it. -/
theorem mask_stored_before_drain :
    added (sample_measure []) (acq_set_int_mask 4 (sample_measure [])) =
      [.job_disable .JOB_ACQUISITION, .store_curr_int_mask 4, .hy_read_regs .HY_REG_INTF 1,
       .hy_write_regs .HY_REG_INTE 1 [4], .job_resume .JOB_ACQUISITION true] ∧
    List.indexOf (Effect.store_curr_int_mask 4)
        (added (sample_measure []) (acq_set_int_mask 4 (sample_measure []))) <
      List.indexOf (Effect.hy_read_regs .HY_REG_INTF 1)
        (added (sample_measure []) (acq_set_int_mask 4 (sample_measure []))) := by
  decide

/-- C13, amended: `acq_set_int_mask(mask)` makes, in this order, the call
`job_disable(JOB_ACQUISITION)`, the store of mask to the mirrored mask, one read
of the interrupt-flag register exactly when mask is not 0, a one-byte write of
mask to the interrupt-enable register, and `job_resume` with the value
`job_disable` returned; on return the mirrored mask is mask, the data of the
last write to the interrupt-enable register. -/
theorem set_int_mask_sequence (mask : Nat) (w : World R H) :
    added w (acq_set_int_mask mask w) =
      .job_disable .JOB_ACQUISITION :: .store_curr_int_mask mask ::
        (if mask ≠ 0 then [.hy_read_regs .HY_REG_INTF 1] else []) ++
        [.hy_write_regs .HY_REG_INTE 1 [mask],
         .job_resume .JOB_ACQUISITION (job_disable .JOB_ACQUISITION w).1] ∧
    (acq_set_int_mask mask w).curr_int_mask = mask ∧
    last_inte_write (added w (acq_set_int_mask mask w)) = some [mask] ∧
    (acq_set_int_mask mask w).hy_reads = w.hy_reads + (if mask ≠ 0 then 1 else 0) := by
  have ht := added_eq w _ _ (set_int_mask_trace mask w)
  refine ⟨by rw [ht]; simp [job_disable], set_int_mask_mask mask w, ?_, ?_⟩
  · rw [ht]
    by_cases h : mask = 0 <;> simp [h, last_inte_write]
  · by_cases h : mask = 0 <;>
      simp [acq_set_int_mask, store_curr_int_mask, job_disable, job_resume, hy_read_regs,
        hy_write_regs, emit, h]

/-- C14, the misc handler is quiescent: for every event tag, value and prior
state it stores 0 to the mirrored mask, writes 0 to the interrupt-enable
register without reading the flag register, resets head and tail to 0, writes no
slot and does not call `job_schedule`; on return the mask is 0 and the queue is
empty. -/
theorem misc_quiescent (event : acq_event_t) (value : Int) (w : World R H) :
    (acq_mode_func_misc event value w).curr_int_mask = 0 ∧
    (acq_mode_func_misc event value w).q_head = 0 ∧
    (acq_mode_func_misc event value w).q_tail = 0 ∧
    q_view (acq_mode_func_misc event value w) = [] ∧
    (acq_mode_func_misc event value w).queue = w.queue ∧
    added w (acq_mode_func_misc event value w) =
      [.job_disable .JOB_ACQUISITION, .store_curr_int_mask 0,
       .hy_write_regs .HY_REG_INTE 1 [0],
       .job_resume .JOB_ACQUISITION (w.job_enabled .JOB_ACQUISITION),
       .disable_irq, .enable_irq] ∧
    last_inte_write (added w (acq_mode_func_misc event value w)) = some [0] ∧
    Effect.job_schedule .JOB_MEASUREMENT ∉ added w (acq_mode_func_misc event value w) := by
  obtain ⟨m, qh, qt⟩ := misc_state event value w
  have ht : added w (acq_mode_func_misc event value w) =
      [.job_disable .JOB_ACQUISITION, .store_curr_int_mask 0,
       .hy_write_regs .HY_REG_INTE 1 [0],
       .job_resume .JOB_ACQUISITION (w.job_enabled .JOB_ACQUISITION),
       .disable_irq, .enable_irq] := by
    simp [added, acq_mode_func_misc, acq_clear_readings, acq_set_int_mask, store_curr_int_mask,
      job_disable, job_resume, hy_write_regs, emit]
  refine ⟨m, qh, qt, q_view_zero _ qh qt, ?_, ht, ?_, ?_⟩
  · simp [acq_mode_func_misc, acq_clear_readings, acq_set_int_mask, store_curr_int_mask,
      job_disable, job_resume, hy_write_regs, emit]
  · rw [ht]; simp [last_inte_write]
  · rw [ht]; simp

/-- C16, `acq_set_submode` does not restart: with handler h active, the call
returns having called h exactly once, with ACQ_EVENT_SET_SUBMODE and the
submode as value, having called no handler with STOP or START, and h is still
the active handler. -/
theorem set_submode_no_restart (env : Env R H) (submode : Int) (w : World R H)
    (h : acq_mode_func) (hcur : w.curr_acq_mode_func = some h) :
    ∃ w1, acq_set_submode env submode w = some w1 ∧
      events (added w w1) = [(h, .ACQ_EVENT_SET_SUBMODE, submode)] ∧
      w1.curr_acq_mode_func = some h := by
  obtain ⟨w1, body, c1, t1, e1, -, f1, -⟩ := set_submode_spec env submode w h hcur
  exact ⟨w1, c1, by rw [added_eq w w1 _ t1, events_call_body, e1], f1⟩

/-- Witness for C16: the measuring handler is active and is sent submode 3. -/
theorem set_submode_no_restart_witness :
    ∃ w1, acq_set_submode sample_env 3 (sample_measure []) = some w1 ∧
      events (added (sample_measure []) w1) = [(.other 0, .ACQ_EVENT_SET_SUBMODE, 3)] ∧
      w1.curr_acq_mode_func = some (.other 0) :=
  set_submode_no_restart sample_env 3 (sample_measure []) (.other 0) rfl

/-! ## Supply pins and lifecycle: lemmas -/

theorem Calm.chain {w w1 w2 : World R H} (h1 : Calm w w1) (h2 : Calm w1 w2) : Calm w w2 := by
  obtain ⟨s1, t1, c1⟩ := h1
  obtain ⟨s2, t2, c2⟩ := h2
  exact ⟨s1 ++ s2, by rw [t2, t1, List.append_assoc], by rw [List.all_append, c1, c2]; rfl⟩

theorem calm_emit (e : Effect) (he : calm e = true) (w : World R H) : Calm w (emit e w) :=
  ⟨[e], rfl, by simp [he]⟩

theorem calm_set_int_mask (mask : Nat) (w : World R H) : Calm w (acq_set_int_mask mask w) := by
  refine ⟨_, set_int_mask_trace mask w, ?_⟩
  by_cases h : mask = 0 <;> simp [h, calm]

theorem clear_trace (w : World R H) :
    (acq_clear_readings w).trace = w.trace ++ [.disable_irq, .enable_irq] := by
  simp [acq_clear_readings, emit]

theorem calm_exec (p : Prog R H) : ∀ w : World R H, Calm w (p.exec w) := by
  induction p with
  | ret h => intro w; exact ⟨[], by simp [Prog.exec], rfl⟩
  | acq_set_int_mask mask k ih => intro w; exact (calm_set_int_mask mask w).chain (ih _)
  | acq_put_reading r k ih => intro w; exact Calm.chain ⟨_, put_trace r w, rfl⟩ (ih _)
  | acq_get_reading r k ih => intro w; exact Calm.chain ⟨_, get_trace r w, rfl⟩ (ih _ _ _)
  | acq_clear_readings k ih => intro w; exact Calm.chain ⟨_, clear_trace w, rfl⟩ (ih _)
  | hy_read_regs reg count k ih =>
    intro w
    exact @Calm.chain R H w (hy_read_regs reg count w).2 _
      ⟨[.hy_read_regs reg count], rfl, rfl⟩ (ih _ _)
  | hy_write_regs reg count data k ih =>
    intro w
    exact @Calm.chain R H w (hy_write_regs reg count data w) _
      ⟨[.hy_write_regs reg count data], rfl, rfl⟩ (ih _)

theorem calm_misc (event : acq_event_t) (value : Int) (w : World R H) :
    Calm w (acq_mode_func_misc event value w) :=
  (calm_set_int_mask 0 w).chain ⟨_, clear_trace _, rfl⟩

theorem calm_call (env : Env R H) (f : Option acq_mode_func) (event : acq_event_t)
    (value : Int) (w w1 : World R H) (h : call_mode_func env f event value w = some w1) :
    Calm w w1 := by
  cases f with
  | none => simp [call_mode_func] at h
  | some g =>
    cases g with
    | acq_mode_func_misc =>
      simp only [call_mode_func, Option.some.injEq] at h
      subst h
      exact (calm_emit (.mode_func .acq_mode_func_misc event value) rfl w).chain
        (calm_misc event value _)
    | other n =>
      simp only [call_mode_func, Option.some.injEq] at h
      subst h
      exact (calm_emit (.mode_func (.other n) event value) rfl w).chain (calm_exec _ _)

theorem calm_set_mode (env : Env R H) (mode : Nat) (submode : Int) (w w1 : World R H)
    (h : acq_set_mode env mode submode w = some w1) : Calm w w1 := by
  simp only [acq_set_mode] at h
  split at h
  · cases h
  · rename_i wa ha
    split at h
    · cases h
    · rename_i g hg
      split at h
      · cases h
      · rename_i wb hb
        simp only [Option.some.injEq] at h
        subst h
        have c0 : Calm w (job_disable .JOB_ACQUISITION w).2 := ⟨[.job_disable .JOB_ACQUISITION], rfl, rfl⟩
        have c1 := calm_call env _ _ _ _ _ ha
        have c2 : Calm wa { wa with curr_acq_mode_func := some g } := ⟨[], by simp, rfl⟩
        have c3 := calm_call env _ _ _ _ _ hb
        have c4 : Calm wb (job_resume .JOB_ACQUISITION (job_disable .JOB_ACQUISITION w).1 wb) :=
          ⟨[.job_resume .JOB_ACQUISITION _], rfl, rfl⟩
        exact c0.chain (c1.chain (c2.chain (c3.chain c4)))

theorem rails_ok_calm (seg rest : List Effect) (hc : seg.all calm = true) :
    rails_ok true true (seg ++ rest) = rails_ok true true rest := by
  induction seg with
  | nil => rfl
  | cons e t ih =>
    simp only [List.all_cons, Bool.and_eq_true] at hc
    cases e <;> simp_all [rails_ok, calm]

theorem supply_calls_calm (seg : List Effect) (hc : seg.all calm = true) :
    supply_calls seg = [] := by
  simp only [supply_calls, List.filter_eq_nil_iff]
  intro e he
  simp [List.all_eq_true.mp hc e he]

theorem deinit_spec (env : Env R H)
    (hmisc : env.acq_mode_funcs[env.ACQ_MODE_MISC]? = some .acq_mode_func_misc)
    (w : World R H) (h : acq_mode_func) (hcur : w.curr_acq_mode_func = some h) :
    ∃ w1 body, acq_deinit env w = some w1 ∧
      w1.trace = w.trace ++ ((.job_disable .JOB_ACQUISITION :: body ++
        [.job_resume .JOB_ACQUISITION (w.job_enabled .JOB_ACQUISITION)]) ++
        [.hy_deinit, .GPIO_PINRST .HW_PWR_CTL2, .GPIO_PINRST .HW_PWR_CTL]) ∧
      events body = [(h, .ACQ_EVENT_STOP, 0),
        (.acq_mode_func_misc, .ACQ_EVENT_START, env.ACQ_MODE_MISC_SUBMODE_OFF)] ∧
      body.all calm = true ∧ w1.curr_acq_mode_func = none := by
  obtain ⟨w1, body, c1, t1, e1, -, -, -, -, -⟩ :=
    set_mode_spec env env.ACQ_MODE_MISC env.ACQ_MODE_MISC_SUBMODE_OFF w h _ hcur hmisc
  obtain ⟨seg, t2, hc⟩ := calm_set_mode env _ _ w w1 c1
  have hseg := List.append_cancel_left (t1.symm.trans t2)
  rw [← hseg] at hc
  simp only [List.cons_append, List.all_cons, List.all_append, Bool.and_eq_true] at hc
  refine ⟨emit (.GPIO_PINRST .HW_PWR_CTL) (emit (.GPIO_PINRST .HW_PWR_CTL2)
      (emit .hy_deinit { w1 with curr_acq_mode_func := none })),
    body, by simp only [acq_deinit, c1], by simp [emit, t1], e1, hc.2.1, rfl⟩

/-! ## Engine lifecycle: order of effects -/

/-- C17, lifecycle effect order: `acq_init` switches on the digital supply, then
the analog supply, waits, and only then calls `hy_init` and the misc handler
with START, no handler being called with STOP; `acq_deinit` calls the active
handler with STOP and the misc handler with START inside `acq_set_mode`, then
`hy_deinit`, then switches off the analog supply and last the digital supply;
in both traces every call into the chip driver is made with both supplies on. -/
theorem lifecycle_order (env : Env R H)
    (hmisc : env.acq_mode_funcs[env.ACQ_MODE_MISC]? = some .acq_mode_func_misc)
    (w0 w : World R H) (h : acq_mode_func) (hcur : w.curr_acq_mode_func = some h) :
    (∃ w1 seg, acq_init env w0 = some w1 ∧
      added w0 w1 = [.GPIO_PINSET .HW_PWR_CTL, .GPIO_PINSET .HW_PWR_CTL2, .HAL_Delay 10,
        .store_curr_int_mask 0, .hy_init,
        .mode_func .acq_mode_func_misc .ACQ_EVENT_START env.ACQ_MODE_MISC_SUBMODE_OFF] ++ seg ∧
      events (added w0 w1) =
        [(.acq_mode_func_misc, .ACQ_EVENT_START, env.ACQ_MODE_MISC_SUBMODE_OFF)] ∧
      supply_calls (added w0 w1) = [.GPIO_PINSET .HW_PWR_CTL, .GPIO_PINSET .HW_PWR_CTL2] ∧
      rails_ok false false (added w0 w1) = true) ∧
    (∃ w1 body, acq_deinit env w = some w1 ∧
      added w w1 = (.job_disable .JOB_ACQUISITION :: body ++
        [.job_resume .JOB_ACQUISITION (w.job_enabled .JOB_ACQUISITION)]) ++
        [.hy_deinit, .GPIO_PINRST .HW_PWR_CTL2, .GPIO_PINRST .HW_PWR_CTL] ∧
      events body = [(h, .ACQ_EVENT_STOP, 0),
        (.acq_mode_func_misc, .ACQ_EVENT_START, env.ACQ_MODE_MISC_SUBMODE_OFF)] ∧
      supply_calls (added w w1) = [.GPIO_PINRST .HW_PWR_CTL2, .GPIO_PINRST .HW_PWR_CTL] ∧
      rails_ok true true (added w w1) = true) := by
  constructor
  · obtain ⟨w1, seg, c1, t1, e1, -⟩ := init_spec env hmisc w0
    have hcalm : seg.all calm = true := by
      have hc : acq_init env w0 = call_mode_func env (some .acq_mode_func_misc)
          .ACQ_EVENT_START env.ACQ_MODE_MISC_SUBMODE_OFF
          { (emit .hy_init (store_curr_int_mask 0 (emit (.HAL_Delay 10)
            (emit (.GPIO_PINSET .HW_PWR_CTL2) (emit (.GPIO_PINSET .HW_PWR_CTL) w0))))) with
            curr_acq_mode_func := some .acq_mode_func_misc } := by
        simp only [acq_init, hmisc]
      obtain ⟨s2, t2, c2⟩ := calm_call env _ _ _ _ _ (hc.symm.trans c1)
      have ht : w1.trace = w0.trace ++ ([.GPIO_PINSET .HW_PWR_CTL, .GPIO_PINSET .HW_PWR_CTL2,
          .HAL_Delay 10, .store_curr_int_mask 0, .hy_init] ++ s2) := by
        rw [t2]; simp [emit, store_curr_int_mask]
      have := List.append_cancel_left (t1.symm.trans ht)
      simp only [List.cons_append, List.nil_append, List.cons.injEq, true_and] at this
      rw [← this] at c2
      simp only [List.all_cons, Bool.and_eq_true] at c2
      exact c2.2
    have ha := added_eq w0 w1 _ t1
    refine ⟨w1, seg, c1, ha, ?_, ?_, ?_⟩
    · rw [ha, events_append, e1]; rfl
    · rw [ha]
      have := supply_calls_calm seg hcalm
      simp only [supply_calls] at this ⊢
      rw [List.filter_append, this]
      rfl
    · rw [ha]
      have := rails_ok_calm seg [] hcalm
      simp only [List.append_nil] at this
      simp [rails_ok, this]
  · obtain ⟨w1, body, c1, t1, e1, hc, -⟩ := deinit_spec env hmisc w h hcur
    have ha := added_eq w w1 _ t1
    refine ⟨w1, body, c1, ha, e1, ?_, ?_⟩
    · rw [ha]
      have := supply_calls_calm body hc
      simp only [supply_calls] at this ⊢
      simp only [List.cons_append, List.filter_cons, List.filter_append, this]
      rfl
    · rw [ha]
      have hall : (Effect.job_disable .JOB_ACQUISITION :: body ++
          [Effect.job_resume .JOB_ACQUISITION (w.job_enabled .JOB_ACQUISITION)]).all calm
          = true := by
        simp [hc, calm]
      rw [rails_ok_calm _ _ hall]
      rfl

/-- Witness for C17: `acq_init` on the sample state with both supplies off, and
`acq_deinit` on the sample state with the measuring handler active. -/
theorem lifecycle_order_witness :
    (∃ w1, acq_init sample_env (sample 0) = some w1 ∧
      supply_calls (added (sample 0) w1) =
        [.GPIO_PINSET .HW_PWR_CTL, .GPIO_PINSET .HW_PWR_CTL2] ∧
      rails_ok false false (added (sample 0) w1) = true) ∧
    (∃ w1, acq_deinit sample_env (sample_measure []) = some w1 ∧
      supply_calls (added (sample_measure []) w1) =
        [.GPIO_PINRST .HW_PWR_CTL2, .GPIO_PINRST .HW_PWR_CTL] ∧
      rails_ok true true (added (sample_measure []) w1) = true) := by
  obtain ⟨⟨w1, -, a, -, -, b, c⟩, ⟨w2, -, d, -, -, e, f⟩⟩ :=
    lifecycle_order sample_env rfl (sample 0) (sample_measure []) (.other 0) rfl
  exact ⟨⟨w1, a, b, c⟩, ⟨w2, d, e, f⟩⟩

/-! ## Handler event protocol: lemmas -/

theorem job_events (env : Env R H) (w : World R H) (h : acq_mode_func)
    (hcur : w.curr_acq_mode_func = some h) :
    ∃ w1 seg, acq_handle_job_acquisition env w = some w1 ∧ w1.trace = w.trace ++ seg ∧
      (events seg = [] ∨ ∃ v, events seg = [(h, .ACQ_EVENT_NEW_AD1, v)]) ∧
      w1.curr_acq_mode_func = some h := by
  by_cases hp : (w.hy_regs w.hy_reads 0 % 256 &&& w.curr_int_mask) &&& env.HY_REG_INT_AD1 ≠ 0
  · obtain ⟨w1, seg, c, t, e, f⟩ := job_deliver env w h hcur hp _ _ _ rfl rfl rfl
    refine ⟨w1, _, c, t, Or.inr ?_, f⟩
    rw [events_append, e]
    exact ⟨_, rfl⟩
  · exact ⟨_, [.hy_read_regs .HY_REG_INTF 1], job_idle env w hp, rfl, Or.inl rfl, hcur⟩

theorem init_events (env : Env R H)
    (hmisc : env.acq_mode_funcs[env.ACQ_MODE_MISC]? = some .acq_mode_func_misc)
    (w : World R H) :
    ∃ w1 seg, acq_init env w = some w1 ∧ w1.trace = w.trace ++ seg ∧
      events seg = [(.acq_mode_func_misc, .ACQ_EVENT_START, env.ACQ_MODE_MISC_SUBMODE_OFF)] ∧
      w1.curr_acq_mode_func = some .acq_mode_func_misc := by
  obtain ⟨w1, s1, c1, t1, e1, f1, -⟩ := init_spec env hmisc w
  refine ⟨w1, _, c1, t1, ?_, f1⟩
  rw [events_append, e1]
  rfl

theorem set_mode_events (env : Env R H) (mode : Nat) (submode : Int) (w : World R H)
    (h : acq_mode_func) (hcur : w.curr_acq_mode_func = some h)
    (hlt : mode < env.acq_mode_funcs.length) :
    ∃ w1 seg g, acq_set_mode env mode submode w = some w1 ∧ w1.trace = w.trace ++ seg ∧
      events seg = [(h, .ACQ_EVENT_STOP, 0), (g, .ACQ_EVENT_START, submode)] ∧
      w1.curr_acq_mode_func = some g := by
  obtain ⟨w1, body, c1, t1, e1, -, f1, -⟩ :=
    set_mode_spec env mode submode w h _ hcur (List.getElem?_eq_getElem hlt)
  exact ⟨w1, _, _, c1, t1, by rw [events_call_body, e1], f1⟩

theorem set_submode_events (env : Env R H) (submode : Int) (w : World R H)
    (h : acq_mode_func) (hcur : w.curr_acq_mode_func = some h) :
    ∃ w1 seg, acq_set_submode env submode w = some w1 ∧ w1.trace = w.trace ++ seg ∧
      events seg = [(h, .ACQ_EVENT_SET_SUBMODE, submode)] ∧
      w1.curr_acq_mode_func = some h := by
  obtain ⟨w1, body, c1, t1, e1, -, f1, -⟩ := set_submode_spec env submode w h hcur
  exact ⟨w1, _, c1, t1, by rw [events_call_body, e1], f1⟩

theorem deinit_events (env : Env R H)
    (hmisc : env.acq_mode_funcs[env.ACQ_MODE_MISC]? = some .acq_mode_func_misc)
    (w : World R H) (h : acq_mode_func) (hcur : w.curr_acq_mode_func = some h) :
    ∃ w1 seg, acq_deinit env w = some w1 ∧ w1.trace = w.trace ++ seg ∧
      events seg = [(h, .ACQ_EVENT_STOP, 0),
        (.acq_mode_func_misc, .ACQ_EVENT_START, env.ACQ_MODE_MISC_SUBMODE_OFF)] := by
  obtain ⟨w1, body, c1, t1, e1, -, -⟩ := deinit_spec env hmisc w h hcur
  refine ⟨w1, _, c1, t1, ?_⟩
  rw [events_append, events_call_body, e1]
  rfl

theorem run_ops_cons (env : Env R H) (op : Op) (t : List Op) (w w1 w2 : World R H)
    (s1 s2 : List Effect) (c1 : run_op env op w = some w1) (t1 : w1.trace = w.trace ++ s1)
    (c2 : run_ops env t w1 = some w2) (t2 : w2.trace = w1.trace ++ s2) :
    run_ops env (op :: t) w = some w2 ∧ w2.trace = w.trace ++ (s1 ++ s2) :=
  ⟨by simp only [run_ops, c1]; exact c2, by rw [t2, t1, List.append_assoc]⟩

theorem ops_ok_uninit (n : Nat) (ops : List Op) (hok : ops_ok n false ops = true)
    (hno : Op.acq_init ∉ ops) : ops = [] := by
  cases ops with
  | nil => rfl
  | cons op t => cases op <;> simp_all [ops_ok]

/-- One session: from an initialised state, calls without `acq_init` keep the
strict pairing of START and STOP. -/
theorem session_paired (env : Env R H)
    (hmisc : env.acq_mode_funcs[env.ACQ_MODE_MISC]? = some .acq_mode_func_misc)
    (ops : List Op) : ∀ (w : World R H) (h : acq_mode_func), w.curr_acq_mode_func = some h →
      ops_ok env.acq_mode_funcs.length true ops = true → Op.acq_init ∉ ops →
      ∃ w1 seg, run_ops env ops w = some w1 ∧ w1.trace = w.trace ++ seg ∧
        starts_paired [h] (events seg) = true := by
  induction ops with
  | nil => intro w h _ _ _; exact ⟨w, [], rfl, by simp, rfl⟩
  | cons op t ih =>
    intro w h hcur hok hno
    have hno' : Op.acq_init ∉ t := fun hm => hno (List.mem_cons_of_mem _ hm)
    cases op with
    | acq_init => exact absurd (List.mem_cons_self _ _) hno
    | acq_deinit =>
      simp only [ops_ok] at hok
      have ht := ops_ok_uninit _ t hok hno'
      subst ht
      obtain ⟨w1, s1, c1, t1, e1⟩ := deinit_events env hmisc w h hcur
      refine ⟨w1, s1, by simp only [run_ops, run_op, c1], t1, ?_⟩
      rw [e1]
      simp [starts_paired]
    | acq_set_mode mode submode =>
      simp only [ops_ok, Bool.and_eq_true, decide_eq_true_eq] at hok
      obtain ⟨w1, s1, g, c1, t1, e1, f1⟩ := set_mode_events env mode submode w h hcur hok.1
      obtain ⟨w2, s2, c2, t2, p2⟩ := ih w1 g f1 hok.2 hno'
      obtain ⟨r1, r2⟩ := run_ops_cons env (.acq_set_mode mode submode) t w w1 w2 s1 s2 c1 t1 c2 t2
      refine ⟨w2, s1 ++ s2, r1, r2, ?_⟩
      rw [events_append, e1]
      simpa [starts_paired] using p2
    | acq_set_submode submode =>
      simp only [ops_ok] at hok
      obtain ⟨w1, s1, c1, t1, e1, f1⟩ := set_submode_events env submode w h hcur
      obtain ⟨w2, s2, c2, t2, p2⟩ := ih w1 h f1 hok hno'
      obtain ⟨r1, r2⟩ := run_ops_cons env (.acq_set_submode submode) t w w1 w2 s1 s2 c1 t1 c2 t2
      refine ⟨w2, s1 ++ s2, r1, r2, ?_⟩
      rw [events_append, e1]
      simpa [starts_paired] using p2
    | acq_handle_job_acquisition =>
      simp only [ops_ok] at hok
      obtain ⟨w1, s1, c1, t1, e1, f1⟩ := job_events env w h hcur
      obtain ⟨w2, s2, c2, t2, p2⟩ := ih w1 h f1 hok hno'
      obtain ⟨r1, r2⟩ := run_ops_cons env .acq_handle_job_acquisition t w w1 w2 s1 s2 c1 t1 c2 t2
      refine ⟨w2, s1 ++ s2, r1, r2, ?_⟩
      rw [events_append]
      rcases e1 with e1 | ⟨v, e1⟩ <;> rw [e1] <;> simpa [starts_paired] using p2

theorem sessions_protocol (env : Env R H)
    (hmisc : env.acq_mode_funcs[env.ACQ_MODE_MISC]? = some .acq_mode_func_misc)
    (ops : List Op) : ∀ (w : World R H) (init : Bool) (started seen : List acq_mode_func),
      ProtocolInv w init started seen →
      ops_ok env.acq_mode_funcs.length init ops = true →
      ∃ w1 seg, run_ops env ops w = some w1 ∧ w1.trace = w.trace ++ seg ∧
        starts_paired_but .acq_mode_func_misc started (events seg) = true ∧
        no_early_delivery seen (events seg) = true := by
  induction ops with
  | nil => intro w init started seen _ _; exact ⟨w, [], rfl, by simp, rfl, rfl⟩
  | cons op t ih =>
    intro w init started seen hinv hok
    cases init with
    | false =>
      cases op with
      | acq_init =>
        simp only [ops_ok] at hok
        obtain ⟨w1, s1, c1, t1, e1, f1⟩ := init_events env hmisc w
        obtain ⟨w2, s2, c2, t2, p2, n2⟩ := ih w1 true [.acq_mode_func_misc]
          (.acq_mode_func_misc :: seen)
          ⟨fun _ => ⟨_, f1, rfl, List.mem_cons_self _ _⟩, fun hc => by cases hc⟩ hok
        obtain ⟨r1, r2⟩ := run_ops_cons env .acq_init t w w1 w2 s1 s2 c1 t1 c2 t2
        have hs : started.erase .acq_mode_func_misc = [] := by
          rcases hinv.2 rfl with hs | hs <;> rw [hs] <;> rfl
        refine ⟨w2, s1 ++ s2, r1, r2, ?_, ?_⟩
        · rw [events_append, e1]
          simpa [starts_paired_but, hs] using p2
        · rw [events_append, e1]
          simpa [no_early_delivery] using n2
      | _ => simp [ops_ok] at hok
    | true =>
      obtain ⟨h, hcur, hst, hseen⟩ := hinv.1 rfl
      subst hst
      cases op with
      | acq_init => simp [ops_ok] at hok
      | acq_deinit =>
        simp only [ops_ok] at hok
        obtain ⟨w1, s1, c1, t1, e1⟩ := deinit_events env hmisc w h hcur
        obtain ⟨w2, s2, c2, t2, p2, n2⟩ := ih w1 false [.acq_mode_func_misc]
          (.acq_mode_func_misc :: seen)
          ⟨fun hc => (by cases hc), fun _ => Or.inr rfl⟩ hok
        obtain ⟨r1, r2⟩ := run_ops_cons env .acq_deinit t w w1 w2 s1 s2 c1 t1 c2 t2
        refine ⟨w2, s1 ++ s2, r1, r2, ?_, ?_⟩
        · rw [events_append, e1]
          simpa [starts_paired_but] using p2
        · rw [events_append, e1]
          simpa [no_early_delivery] using n2
      | acq_set_mode mode submode =>
        simp only [ops_ok, Bool.and_eq_true, decide_eq_true_eq] at hok
        obtain ⟨w1, s1, g, c1, t1, e1, f1⟩ := set_mode_events env mode submode w h hcur hok.1
        obtain ⟨w2, s2, c2, t2, p2, n2⟩ := ih w1 true [g] (g :: seen)
          ⟨fun _ => ⟨_, f1, rfl, List.mem_cons_self _ _⟩, fun hc => by cases hc⟩ hok.2
        obtain ⟨r1, r2⟩ := run_ops_cons env (.acq_set_mode mode submode) t w w1 w2 s1 s2 c1 t1 c2 t2
        refine ⟨w2, s1 ++ s2, r1, r2, ?_, ?_⟩
        · rw [events_append, e1]
          simpa [starts_paired_but] using p2
        · rw [events_append, e1]
          simpa [no_early_delivery] using n2
      | acq_set_submode submode =>
        simp only [ops_ok] at hok
        obtain ⟨w1, s1, c1, t1, e1, f1⟩ := set_submode_events env submode w h hcur
        obtain ⟨w2, s2, c2, t2, p2, n2⟩ := ih w1 true [h] seen
          ⟨fun _ => ⟨h, f1, rfl, hseen⟩, fun hc => by cases hc⟩ hok
        obtain ⟨r1, r2⟩ := run_ops_cons env (.acq_set_submode submode) t w w1 w2 s1 s2 c1 t1 c2 t2
        refine ⟨w2, s1 ++ s2, r1, r2, ?_, ?_⟩
        · rw [events_append, e1]
          simpa [starts_paired_but] using p2
        · rw [events_append, e1]
          simpa [no_early_delivery, hseen] using n2
      | acq_handle_job_acquisition =>
        simp only [ops_ok] at hok
        obtain ⟨w1, s1, c1, t1, e1, f1⟩ := job_events env w h hcur
        obtain ⟨w2, s2, c2, t2, p2, n2⟩ := ih w1 true [h] seen
          ⟨fun _ => ⟨h, f1, rfl, hseen⟩, fun hc => by cases hc⟩ hok
        obtain ⟨r1, r2⟩ := run_ops_cons env .acq_handle_job_acquisition t w w1 w2 s1 s2 c1 t1 c2 t2
        refine ⟨w2, s1 ++ s2, r1, r2, ?_, ?_⟩
        · rw [events_append]
          rcases e1 with e1 | ⟨v, e1⟩ <;> rw [e1] <;> simpa [starts_paired_but] using p2
        · rw [events_append]
          rcases e1 with e1 | ⟨v, e1⟩ <;> rw [e1] <;>
            simpa [no_early_delivery, hseen] using n2

/-! ## Handler event protocol over the whole interface -/

/-- C15, counterexample: `acq_init`, `acq_deinit`, `acq_init` respects the
interface, and the misc handler is called with START by `acq_deinit` and again
by the second `acq_init` with no STOP in between. -/
theorem reinit_starts_misc_twice :
    ops_ok sample_env.acq_mode_funcs.length false [.acq_init, .acq_deinit, .acq_init] = true ∧
    run_events sample_env [.acq_init, .acq_deinit, .acq_init] (sample 0) =
      some [(.acq_mode_func_misc, .ACQ_EVENT_START, 0),
        (.acq_mode_func_misc, .ACQ_EVENT_STOP, 0), (.acq_mode_func_misc, .ACQ_EVENT_START, 0),
        (.acq_mode_func_misc, .ACQ_EVENT_START, 0)] ∧
    starts_paired [] [(.acq_mode_func_misc, .ACQ_EVENT_START, 0),
        (.acq_mode_func_misc, .ACQ_EVENT_STOP, 0), (.acq_mode_func_misc, .ACQ_EVENT_START, 0),
        (.acq_mode_func_misc, .ACQ_EVENT_START, 0)] = false := by
  decide

/-- C15, amended: for every call sequence that respects the interface
(`acq_init` first and again only after `acq_deinit`, everything else only while
initialised, valid mode identifiers) the run returns, no handler is called with
SET_SUBMODE or NEW_AD1 before its first START, and the only START sent to a
handler that is started is one sent to the misc handler (by `acq_init` after an
`acq_deinit`, which starts the misc handler and does not stop it); when
`acq_init` occurs only as the first call, no handler is sent START twice
without a STOP in between. -/
theorem handler_protocol (env : Env R H)
    (hmisc : env.acq_mode_funcs[env.ACQ_MODE_MISC]? = some .acq_mode_func_misc)
    (w : World R H) (ops : List Op)
    (hok : ops_ok env.acq_mode_funcs.length false ops = true) :
    ∃ w1, run_ops env ops w = some w1 ∧
      no_early_delivery [] (events (added w w1)) = true ∧
      starts_paired_but .acq_mode_func_misc [] (events (added w w1)) = true ∧
      (Op.acq_init ∉ ops.tail → starts_paired [] (events (added w w1)) = true) := by
  obtain ⟨w1, seg, c, t, p, n⟩ := sessions_protocol env hmisc ops w false [] []
    ⟨fun hc => (by cases hc), fun _ => Or.inl rfl⟩ hok
  have ha := added_eq w w1 seg t
  refine ⟨w1, c, by rw [ha]; exact n, by rw [ha]; exact p, fun hno => ?_⟩
  cases ops with
  | nil =>
    simp only [run_ops, Option.some.injEq] at c
    subst c
    simp [added, events, starts_paired]
  | cons op rest =>
    cases op with
    | acq_init =>
      simp only [ops_ok] at hok
      simp only [List.tail_cons] at hno
      obtain ⟨wa, s1, c1, t1, e1, f1⟩ := init_events env hmisc w
      obtain ⟨wb, s2, c2, t2, p2⟩ := session_paired env hmisc rest wa _ f1 hok hno
      obtain ⟨r1, r2⟩ := run_ops_cons env .acq_init rest w wa wb s1 s2 c1 t1 c2 t2
      have hw : w1 = wb := Option.some.inj (c.symm.trans r1)
      subst hw
      rw [added_eq w w1 _ r2, events_append, e1]
      simpa [starts_paired] using p2
    | _ => simp [ops_ok] at hok

/-- Witness for C15 (amended): one session with a mode change, a submode
change, an acquisition job run with AD1 pending, and `acq_deinit`. -/
theorem handler_protocol_witness :
    ∃ w1, run_ops sample_env [.acq_init, .acq_set_mode 1 2, .acq_set_submode 3,
          .acq_handle_job_acquisition, .acq_deinit]
        (sample_measure [[4], [4], [1, 2, 3]]) = some w1 ∧
      no_early_delivery [] (events (added (sample_measure [[4], [4], [1, 2, 3]]) w1)) = true ∧
      starts_paired [] (events (added (sample_measure [[4], [4], [1, 2, 3]]) w1)) = true := by
  obtain ⟨w1, a, b, -, c⟩ := handler_protocol sample_env rfl
    (sample_measure [[4], [4], [1, 2, 3]])
    [.acq_init, .acq_set_mode 1 2, .acq_set_submode 3, .acq_handle_job_acquisition, .acq_deinit]
    (by decide)
  exact ⟨w1, a, b, c (by decide)⟩

end Acq
